import Mathlib

/-!
Verification model of the rusty-kv paged B-tree storage layer.

The definitions below are a shallow embedding of the Rust sources:

* `src/store/btree_kv/helpers/byte_ordering.rs` — `cmp_le_bytes`
* `src/store/btree_kv/page.rs` — page header, row codec, slot map,
  free-space accounting, body operations (`get`/`insert`/`update`/`remove`/
  `search`) and the page-level `get`/`save`/`delete`
* `src/store/btree_kv/disk_manager.rs` — `read_page`/`write_page`
* `src/store/btree_kv/cache_manager.rs` — `LRUCacheManager`
  (backed by `linked_hash_set::LinkedHashSet`; per the crate's and the
  repo's documentation, `insert` moves an already-present element to the
  back of the queue)
* `src/store/btree_kv/buffer_pool_manager.rs` — `BufferPoolManager::get`
  and `evict_slot`

Bytes are modelled as `Nat` (the Rust code uses `u8`; theorems that depend
on byte arithmetic carry `< 256` hypotheses).  A page's byte buffer is
modelled as a total function `Nat → Nat`; a Rust `copy_from_slice` into a
sub-range becomes `writeBytes`, and the manual shift loops of the slot map
become the explicit loops `copyLoopAsc` / `copyLoopDesc`.  Fallible Rust
operations returning `Result` are modelled with `Except`; `&mut self`
methods return the updated state.  Rust `assert!`s are not separately
modelled: on every execution path exercised by the theorems below the
asserted bounds hold (they are re-derived as proof obligations where they
matter).  The unwraps of `BufferPoolManager` (empty cache / vacant
page id) are modelled with `Option`.
-/

/-- `RustyKVError` from `src/store/btree_kv/error.rs`. -/
inductive RustyKVError where
  | InsufficientSpace
  | ItemNotFound
  | UnknownError
deriving DecidableEq, Repr

instance {ε α : Type} [DecidableEq ε] [DecidableEq α] : DecidableEq (Except ε α)
  | .error e, .error f =>
    if h : e = f then isTrue (by rw [h])
    else isFalse (fun hc => h (Except.error.inj hc))
  | .error _, .ok _ => isFalse (fun hc => Except.noConfusion hc)
  | .ok _, .error _ => isFalse (fun hc => Except.noConfusion hc)
  | .ok x, .ok y =>
    if h : x = y then isTrue (by rw [h])
    else isFalse (fun hc => h (Except.ok.inj hc))

/-- `PAGE_SIZE` from `commons.rs`. -/
def PAGE_SIZE : Nat := 8000

/-- `PAGE_HEADER_SIZE` (= `SLOT_COUNT_SIZE`, 2 bytes) from `page.rs`. -/
def PAGE_HEADER_SIZE : Nat := 2

/-- `PAGE_BODY_SIZE = PAGE_SIZE - PAGE_HEADER_SIZE` from `page.rs`. -/
def PAGE_BODY_SIZE : Nat := 7998

/-- `ROW_HEADER_SIZE` (2-byte key length + 2-byte value length). -/
def ROW_HEADER_SIZE : Nat := 4

/-- `SLOT_MAP_ELEMENT_SIZE` (a `u16` row offset). -/
def SLOT_MAP_ELEMENT_SIZE : Nat := 2

/-- Write the list `bs` into the byte buffer `f` starting at `off`
(the semantics of Rust's `copy_from_slice` on the sub-slice
`[off, off + bs.length)`). -/
def writeBytes (f : Nat → Nat) (off : Nat) (bs : List Nat) : Nat → Nat :=
  fun i => if off ≤ i ∧ i < off + bs.length then bs.getD (i - off) 0 else f i

/-- Read `len` bytes from the buffer `f` starting at `off`
(the semantics of taking the sub-slice `[off, off + len)`). -/
def readBytes (f : Nat → Nat) (off len : Nat) : List Nat :=
  (List.range len).map (fun j => f (off + j))

/-- `u16::from_le_bytes` applied to the two bytes at `off`. -/
def readU16 (f : Nat → Nat) (off : Nat) : Nat :=
  f off + 256 * f (off + 1)

/-- `u16::to_le_bytes` of `n` (the Rust value is a `u16`, hence the mod). -/
def u16Bytes (n : Nat) : List Nat :=
  [n % 256, n / 256 % 256]

/-- Single-cell store into a byte buffer (one iteration of a shift loop). -/
def setByte (f : Nat → Nat) (i v : Nat) : Nat → Nat :=
  fun j => if j = i then v else f j

/-- Iterations of the ascending shift loop, counted structurally: running
`copyLoopAscGo d lo c` performs `data[i] = data[i + 2]` for
`i = lo, lo + 1, …, lo + c - 1` in that order. -/
def copyLoopAscGo (d : Nat → Nat) (lo : Nat) : Nat → Nat → Nat
  | 0 => d
  | c + 1 => copyLoopAscGo (setByte d lo (d (lo + 2))) (lo + 1) c

/-- The ascending shift loop of `BTreePageSlotMap::insert_slot_element`:
`for i in lo..hi { data[i] = data[i + 2]; }`. -/
def copyLoopAsc (d : Nat → Nat) (lo hi : Nat) : Nat → Nat :=
  copyLoopAscGo d lo (hi - lo)

/-- Iterations of the descending shift loop, counted structurally: running
`copyLoopDescGo d lo c` performs `data[i + 2] = data[i]` for
`i = lo + c - 1, …, lo + 1, lo` in that order. -/
def copyLoopDescGo (d : Nat → Nat) (lo : Nat) : Nat → Nat → Nat
  | 0 => d
  | c + 1 => copyLoopDescGo (setByte d (lo + c + 2) (d (lo + c))) lo c

/-- The descending shift loop of `BTreePageSlotMap::delete_slot_map_element`:
`for i in (lo..hi).rev() { data[i + 2] = data[i]; }`. -/
def copyLoopDesc (d : Nat → Nat) (lo hi : Nat) : Nat → Nat :=
  copyLoopDescGo d lo (hi - lo)

/-- One step of `cmp_le_bytes`' loop: compare index `n - 1` (reading a
missing index as the zero byte, Rust's `.copied().unwrap_or(0)`), falling
through to the lower indices on equality. -/
def cmpFromAux (a b : List Nat) : Nat → Ordering
  | 0 => .eq
  | n + 1 =>
    if a.getD n 0 = b.getD n 0 then cmpFromAux a b n
    else compare (a.getD n 0) (b.getD n 0)

/-- `cmp_le_bytes` from `helpers/byte_ordering.rs`: bytes are compared from
index `max_len - 1` down to index 0. -/
def cmpLeBytes (a b : List Nat) : Ordering :=
  cmpFromAux a b (max a.length b.length)

/-- The integer value of a byte array read as a little-endian number:
`leVal a = a[0] + 256 * (a[1] + 256 * (...))`. -/
def leVal : List Nat → Nat
  | [] => 0
  | b :: t => b + 256 * leVal t

/-- `leVal` truncated to the first `n` (zero-padded) positions. -/
def leValN (a : List Nat) : Nat → Nat
  | 0 => 0
  | n + 1 => leValN a n + a.getD n 0 * 256 ^ n

/-- The state of one `BTreePage` view (`page.rs`): the header bytes, the
body bytes, and the `BTreePageFreeSpace` / `BTreePageSlotMap` bookkeeping
fields that the Rust views thread through every operation. -/
structure BTreePage where
  hdr : Nat → Nat
  data : Nat → Nat
  fsStart : Nat
  fsEnd : Nat
  smStart : Nat

/-- `BTreePageHeader::get_slot_count` (little-endian `u16` at offset 0). -/
def getSlotCount (p : BTreePage) : Nat :=
  readU16 p.hdr 0

/-- `BTreePageHeader::set_slot_count`. -/
def setSlotCount (p : BTreePage) (c : Nat) : BTreePage :=
  { p with hdr := writeBytes p.hdr 0 (u16Bytes c) }

/-- `BTreePageHeader::increase_slot_count`. -/
def increaseSlotCount (p : BTreePage) (n : Nat) : BTreePage :=
  setSlotCount p (getSlotCount p + n)

/-- `BTreePageHeader::decrease_slot_count`. -/
def decreaseSlotCount (p : BTreePage) (n : Nat) : BTreePage :=
  setSlotCount p (getSlotCount p - n)

/-- `BTreeRow::get_key_size` for the row starting at `off` in `data`. -/
def rowGetKeySize (data : Nat → Nat) (off : Nat) : Nat :=
  readU16 data off

/-- `BTreeRow::get_value_size`. -/
def rowGetValueSize (data : Nat → Nat) (off : Nat) : Nat :=
  readU16 data (off + 2)

/-- `BTreeRow::get_size` = key size + value size + `ROW_HEADER_SIZE`. -/
def rowGetSize (data : Nat → Nat) (off : Nat) : Nat :=
  rowGetKeySize data off + rowGetValueSize data off + ROW_HEADER_SIZE

/-- `BTreeRow::get_key`. -/
def rowGetKey (data : Nat → Nat) (off : Nat) : List Nat :=
  readBytes data (off + ROW_HEADER_SIZE) (rowGetKeySize data off)

/-- `BTreeRow::set_key`: writes the key length, then the key bytes. -/
def rowSetKey (data : Nat → Nat) (off : Nat) (key : List Nat) : Nat → Nat :=
  writeBytes (writeBytes data off (u16Bytes key.length)) (off + ROW_HEADER_SIZE) key

/-- `BTreeRow::set_value`: reads the key size, writes the value length,
then the value bytes after the key. -/
def rowSetValue (data : Nat → Nat) (off : Nat) (value : List Nat) : Nat → Nat :=
  writeBytes (writeBytes data (off + 2) (u16Bytes value.length))
    (off + ROW_HEADER_SIZE + rowGetKeySize data off) value

/-- `BTreeRow::clear_row`: zero-fills the row's full byte range. -/
def rowClear (data : Nat → Nat) (off : Nat) : Nat → Nat :=
  writeBytes data off (List.replicate (rowGetSize data off) 0)

/-- `BTreeBodyData::from`'s row walk: advance an offset over `count`
contiguous rows starting at `idx` (establishes where the row area ends). -/
def rowScan (data : Nat → Nat) : Nat → Nat → Nat
  | 0, idx => idx
  | c + 1, idx => rowScan data c (idx + rowGetSize data idx)

/-- `BTreePage::from` over a full `PAGE_SIZE` buffer: split off the 2-byte
header, then rebuild the free-space bounds and the slot-map start the way
`BTreeBodyData::from` does. -/
def pageFrom (page : Nat → Nat) : BTreePage :=
  let hdr : Nat → Nat := fun i => page i
  let body : Nat → Nat := fun i => page (PAGE_HEADER_SIZE + i)
  let cnt := readU16 hdr 0
  let smStart := PAGE_BODY_SIZE - cnt * SLOT_MAP_ELEMENT_SIZE
  let idx := rowScan body cnt 0
  { hdr := hdr, data := body, fsStart := idx, fsEnd := smStart, smStart := smStart }

/-- A page view over an all-zero `PAGE_SIZE` buffer. -/
def emptyPage : BTreePage :=
  pageFrom (fun _ => 0)

/-- `BTreePageSlotMap::get_slot_map_element` decoded as a row offset
(`u16::from_le_bytes` of the element's two bytes, as every caller does). -/
def getSlotMapElement (p : BTreePage) (index : Nat) : Nat :=
  readU16 p.data (p.smStart + SLOT_MAP_ELEMENT_SIZE * index)

/-- `BTreePageSlotMap::insert_slot_element`: allocate one element from the
end of the free space (the slot map's new start), shift the bytes of the
elements before `index` left by one element width, then write the new
element at `index`. -/
def insertSlotElement (p : BTreePage) (element : Nat) (index : Nat) : BTreePage :=
  let newSm := p.fsEnd - SLOT_MAP_ELEMENT_SIZE
  let d1 := copyLoopAsc p.data newSm (newSm + SLOT_MAP_ELEMENT_SIZE * index)
  let d2 := writeBytes d1 (newSm + SLOT_MAP_ELEMENT_SIZE * index) (u16Bytes element)
  { p with data := d2, fsEnd := newSm, smStart := newSm }

/-- `BTreePageSlotMap::delete_slot_map_element`: run the Rust shift loop
`for i in (new_start .. start + 2*index).rev() { data[i+2] = data[i]; }`,
move the slot-map start up one element, and give the element's space back
to the free region. -/
def deleteSlotMapElement (p : BTreePage) (index : Nat) : BTreePage :=
  let newStart := p.smStart + SLOT_MAP_ELEMENT_SIZE
  let d1 := copyLoopDesc p.data newStart (p.smStart + index * SLOT_MAP_ELEMENT_SIZE)
  { p with data := d1, smStart := newStart, fsEnd := p.fsEnd + SLOT_MAP_ELEMENT_SIZE }

/-- The row offset the `search` pivot reads at slot-map index `i`. -/
def rowOffAt (data : Nat → Nat) (sm i : Nat) : Nat :=
  readU16 data (sm + SLOT_MAP_ELEMENT_SIZE * i)

/-- The pivot row's key as `search` reads it. -/
def pivotKeyAt (data : Nat → Nat) (sm i : Nat) : List Nat :=
  rowGetKey data (rowOffAt data sm i)

/-- The recursion of `BTreeBodyData::search` with an explicit structural
bound on the recursion depth.  The range `[start, end)` shrinks strictly
at every recursive call, so any `fuel ≥ end - start` gives the same
result (`searchGo_congr` below); the `fuel = 0` fallback is unreachable
under that bound. -/
def searchGo (data : Nat → Nat) (sm : Nat) (key : List Nat) :
    Nat → Nat → Nat → Except Nat Nat
  | 0, start, _ => .error start
  | fuel + 1, start, end_ =>
    if end_ ≤ start then .error start
    else
      let pivot := start + (end_ - start) / 2
      match cmpLeBytes key (pivotKeyAt data sm pivot) with
      | .eq => .ok pivot
      | .lt => searchGo data sm key fuel start pivot
      | .gt => searchGo data sm key fuel (pivot + 1) end_

/-- `BTreeBodyData::search`: recursive binary search over the slot-map
range `[start, end)`.  `Ok i` is a hit at slot-map index `i`; `error i`
is a miss with insertion point `i`.  (The Rust code tests `start == end`;
a call with `start > end` is unreachable — its pivot arithmetic would
already panic on `usize` underflow — and is mapped to the same miss.) -/
def search (data : Nat → Nat) (sm : Nat) (key : List Nat) (start end_ : Nat) :
    Except Nat Nat :=
  searchGo data sm key (end_ - start) start end_

/-- `BTreeBodyData::get`: search for the key; on a hit return the row's
full byte range, otherwise `ItemNotFound`. -/
def bodyGet (p : BTreePage) (key : List Nat) : Except RustyKVError (List Nat) :=
  match search p.data p.smStart key 0 (getSlotCount p) with
  | .ok index =>
    let rowOffset := getSlotMapElement p index
    .ok (readBytes p.data rowOffset (rowGetSize p.data rowOffset))
  | .error _ => .error .ItemNotFound

/-- `BTreeBodyData::update`: in-place value overwrite, allowed only when
the new value's length equals the stored value length. -/
def bodyUpdate (p : BTreePage) (value : List Nat) (index : Nat) :
    BTreePage × Except RustyKVError Unit :=
  let rowOffset := getSlotMapElement p index
  if rowGetValueSize p.data rowOffset ≠ value.length then
    (p, .error .InsufficientSpace)
  else
    ({ p with data := rowSetValue p.data rowOffset value }, .ok ())

/-- `BTreeBodyData::insert`: reject if the row plus one slot-map element
exceeds the free space; otherwise allocate row space at the start of the
free region, write the row, and insert its offset into the slot map. -/
def bodyInsert (p : BTreePage) (key value : List Nat) (index : Nat) :
    BTreePage × Except RustyKVError Unit :=
  let slotSize := ROW_HEADER_SIZE + key.length + value.length
  if slotSize + SLOT_MAP_ELEMENT_SIZE > p.fsEnd - p.fsStart then
    (p, .error .InsufficientSpace)
  else
    let newRowStart := p.fsStart
    let d1 := rowSetValue (rowSetKey p.data newRowStart key) newRowStart value
    let p1 := { p with data := d1, fsStart := p.fsStart + slotSize }
    (insertSlotElement p1 newRowStart index, .ok ())

/-- `BTreeBodyData::remove`: zero-fill the row, delete its slot-map entry,
decrement the header's slot count. -/
def bodyRemove (p : BTreePage) (index : Nat) : BTreePage × Except RustyKVError Unit :=
  let rowOffset := getSlotMapElement p index
  let p1 := { p with data := rowClear p.data rowOffset }
  let p2 := deleteSlotMapElement p1 index
  (decreaseSlotCount p2 1, .ok ())

/-- `BTreePage::get`: `None` on a miss, otherwise the row's bytes
(the `RowResult` view). -/
def pageGet (p : BTreePage) (key : List Nat) : Option (List Nat) :=
  match bodyGet p key with
  | .error _ => none
  | .ok row => some row

/-- `BTreePage::save`: on a search hit delegate to `update`; on a miss
delegate to `insert` at the returned insertion index and then bump the
slot count (the Rust code increments the count even when `insert`
returned an error). -/
def pageSave (p : BTreePage) (key value : List Nat) :
    BTreePage × Except RustyKVError Unit :=
  match search p.data p.smStart key 0 (getSlotCount p) with
  | .ok index => bodyUpdate p value index
  | .error index =>
    let r := bodyInsert p key value index
    (increaseSlotCount r.1 1, r.2)

/-- `BTreePage::delete`: remove on a hit, no-op success on a miss. -/
def pageDelete (p : BTreePage) (key : List Nat) :
    BTreePage × Except RustyKVError Unit :=
  match search p.data p.smStart key 0 (getSlotCount p) with
  | .ok index => bodyRemove p index
  | .error _ => (p, .ok ())

/-- `RowResult::get_value`: decode the two length fields from the row's
own bytes and slice out the value. -/
def rowGetValue (row : List Nat) : List Nat :=
  let ks := row.getD 0 0 + 256 * row.getD 1 0
  let vs := row.getD 2 0 + 256 * row.getD 3 0
  (row.drop (ROW_HEADER_SIZE + ks)).take vs

/-- `page.get(key).map(|row| row.get_value())`. -/
def pageGetValue (p : BTreePage) (key : List Nat) : Option (List Nat) :=
  (pageGet p key).map rowGetValue

/-- Splice `chunk` into `buf` at position `pos` (Rust
`buffer[pos..pos+chunk.len()].copy_from_slice(chunk)`). -/
def listSplice (buf : List Nat) (pos : Nat) (chunk : List Nat) : List Nat :=
  buf.take pos ++ chunk ++ buf.drop (pos + chunk.length)

/-- The `while bytes_read < PAGE_SIZE` loop of `DiskManager::read_page`.
A model `file.read` at cursor `off + br` returns every byte available up
to the requested amount, i.e. `(file.drop (off+br)).take (PAGE_SIZE-br)`;
a zero-length read means end-of-file, and the rest of the buffer is
zero-filled.  Two iterations always suffice for this deterministic read,
which the fuel makes explicit. -/
def readPageGo (file : List Nat) (off : Nat) (buf : List Nat) (br : Nat) :
    Nat → List Nat
  | 0 => buf
  | fuel + 1 =>
    if br < PAGE_SIZE then
      let chunk := (file.drop (off + br)).take (PAGE_SIZE - br)
      if chunk.length = 0 then
        listSplice buf br (List.replicate (PAGE_SIZE - br) 0)
      else
        readPageGo file off (listSplice buf br chunk) (br + chunk.length) fuel
    else buf

/-- `DiskManager::read_page`: seek to `id * PAGE_SIZE` and run the read
loop over a zero-initialised caller buffer.  (Absent I/O failures the Rust
function always returns `Ok(())` with the buffer filled; the model returns
the filled buffer.) -/
def readPage (file : List Nat) (id : Nat) : List Nat :=
  readPageGo file (id * PAGE_SIZE) (List.replicate PAGE_SIZE 0) 0 2

/-- `DiskManager::write_page`: seek to `id * PAGE_SIZE` (a seek past the
end of the file zero-fills the gap) and overwrite `buf.length` bytes. -/
def writePage (file : List Nat) (id : Nat) (buf : List Nat) : List Nat :=
  (file.take (id * PAGE_SIZE) ++ List.replicate (id * PAGE_SIZE - file.length) 0)
    ++ buf ++ file.drop (id * PAGE_SIZE + buf.length)

/-- `HashMap::get` on the lookup table, modelled as an association list. -/
def lkGet (l : List (Nat × Nat)) (k : Nat) : Option Nat :=
  (l.find? (fun q => q.1 = k)).map (fun q => q.2)

/-- `HashMap::remove`. -/
def lkRemove (l : List (Nat × Nat)) (k : Nat) : List (Nat × Nat) :=
  l.filter (fun q => q.1 ≠ k)

/-- `HashMap::insert` (keys are unique in the table). -/
def lkInsert (l : List (Nat × Nat)) (k v : Nat) : List (Nat × Nat) :=
  lkRemove l k ++ [(k, v)]

/-- `LinkedHashSet::insert`: move the item to the back of the queue,
inserting it if absent. -/
def lhsInsert (s : List Nat) (x : Nat) : List Nat :=
  s.filter (fun y => y ≠ x) ++ [x]

/-- `LRUCacheManager::add`: when the set is full, `evict_cache()` first
silently pops (and discards) the front element, then the item is inserted
at the back. -/
def cacheAdd (cap : Nat) (s : List Nat) (x : Nat) : List Nat :=
  lhsInsert (if cap ≤ s.length then s.drop 1 else s) x

/-- `Vec::pop` (from the back) for the vacant-slot list. -/
def vecPop (v : List Nat) : Option (Nat × List Nat) :=
  match v with
  | [] => none
  | a :: t => some ((a :: t).getLast (by simp), (a :: t).dropLast)

/-- The state of a `BufferPoolManager` (with its `DiskManager`'s backing
file inlined as a byte list): frame data, frame metadata
`(page_id, is_dirty)`, the page-id → slot lookup table, the LRU queue of
slot indices (front = least recently used), its capacity, and the vacant
slot stack. -/
structure BPMState where
  file : List Nat
  pool : List (List Nat)
  meta : List (Option Nat × Bool)
  lookup : List (Nat × Nat)
  cache : List Nat
  cacheCap : Nat
  vacant : List Nat

/-- `BufferPoolManager::evict_slot`: pop the LRU slot from the cache, read
its page id (`None` models the `unwrap` panics on an empty cache or a
vacant frame), drop that page id from the lookup table, and write the
frame back to disk only if it is dirty, clearing the dirty flag. -/
def evictSlot (st : BPMState) : Option (Nat × BPMState) :=
  match st.cache with
  | [] => none
  | c :: rest =>
    match (st.meta.getD c (none, false)).1 with
    | none => none
    | some pid =>
      let st1 := { st with cache := rest, lookup := lkRemove st.lookup pid }
      if (st.meta.getD c (none, false)).2 then
        some (c, { st1 with
          file := writePage st1.file pid (st.pool.getD c []),
          meta := st1.meta.set c (some pid, false) })
      else
        some (c, st1)

/-- Steps 3–4 of `BufferPoolManager::get`'s miss path: copy the disk data
into the slot's frame, clear its dirty flag, record its page id, insert it
into the lookup table, and touch the cache. -/
def installPage (st : BPMState) (slot pid : Nat) (data : List Nat) : BPMState :=
  { st with
    pool := st.pool.set slot data,
    meta := st.meta.set slot (some pid, false),
    lookup := lkInsert st.lookup pid slot,
    cache := cacheAdd st.cacheCap st.cache slot }

/-- `BufferPoolManager::get`: serve a cache hit by touching the LRU queue;
on a miss read the page from disk, take a vacant slot or evict the LRU
slot, and install the page there. -/
def bpmGet (st : BPMState) (pid : Nat) : Option BPMState :=
  match lkGet st.lookup pid with
  | some slot => some { st with cache := cacheAdd st.cacheCap st.cache slot }
  | none =>
    let data := readPage st.file pid
    match vecPop st.vacant with
    | some sl => some (installPage { st with vacant := sl.2 } sl.1 pid data)
    | none =>
      match evictSlot st with
      | none => none
      | some ev => some (installPage ev.2 ev.1 pid data)

/-- A fresh pool over an empty backing file with `n` slots
(`new_with_path(n * PAGE_SIZE, ...)`). -/
def bpmNew (n : Nat) : BPMState :=
  { file := []
    pool := List.replicate n (List.replicate PAGE_SIZE 0)
    meta := List.replicate n (none, false)
    lookup := []
    cache := []
    cacheCap := n
    vacant := List.range n }

/-! ### Abstraction of a page's contents

`PageInv p rows offs` relates a `BTreePage` view to the logical list of
`(key, value)` rows it stores (in slot-map order) together with the body
offsets `offs` of those rows.  It captures exactly the layout that
`page.rs` maintains: the header's slot count, the slot-map position and
contents, the row encodings, the free-space bounds, pairwise-disjoint row
ranges below the free space, stored key bytes being actual `u8` values,
and the slot map being strictly sorted under the engine's byte-reversed
(`leVal`) order. -/

/-- The key of logical row `i`. -/
def keyD (rows : List (List Nat × List Nat)) (i : Nat) : List Nat :=
  (rows.getD i ([], [])).1

/-- The value of logical row `i`. -/
def valD (rows : List (List Nat × List Nat)) (i : Nat) : List Nat :=
  (rows.getD i ([], [])).2

/-- The body offset of logical row `i`. -/
def offD (offs : List Nat) (i : Nat) : Nat :=
  offs.getD i 0

/-- The byte size of a logical row (`ROW_HEADER_SIZE + |key| + |value|`). -/
def rowSizeKV (kv : List Nat × List Nat) : Nat :=
  ROW_HEADER_SIZE + kv.1.length + kv.2.length

/-- Insert `x` at position `i` of `l` (shifting the tail right). -/
def insAt {α : Type} (l : List α) (i : Nat) (x : α) : List α :=
  l.take i ++ x :: l.drop i

/-- The well-formedness relation between a page view and its logical rows. -/
structure PageInv (p : BTreePage) (rows : List (List Nat × List Nat))
    (offs : List Nat) : Prop where
  olen : offs.length = rows.length
  cnt : getSlotCount p = rows.length
  size_ok : 2 * rows.length ≤ PAGE_BODY_SIZE
  sm : p.smStart = PAGE_BODY_SIZE - 2 * rows.length
  fse : p.fsEnd = p.smStart
  fsle : p.fsStart ≤ p.fsEnd
  off_fit : ∀ i, i < rows.length →
    offD offs i + 4 + (keyD rows i).length + (valD rows i).length ≤ p.fsStart
  enc_k : ∀ i, i < rows.length → readU16 p.data (offD offs i) = (keyD rows i).length
  enc_v : ∀ i, i < rows.length → readU16 p.data (offD offs i + 2) = (valD rows i).length
  bytes_k : ∀ i, i < rows.length →
    readBytes p.data (offD offs i + 4) (keyD rows i).length = keyD rows i
  bytes_v : ∀ i, i < rows.length →
    readBytes p.data (offD offs i + 4 + (keyD rows i).length) (valD rows i).length
      = valD rows i
  slot_enc : ∀ i, i < rows.length → readU16 p.data (p.smStart + 2 * i) = offD offs i
  k256 : ∀ i, i < rows.length → ∀ b ∈ keyD rows i, b < 256
  disj : ∀ i j, i < rows.length → j < rows.length → i ≠ j →
    offD offs i + 4 + (keyD rows i).length + (valD rows i).length ≤ offD offs j ∨
    offD offs j + 4 + (keyD rows j).length + (valD rows j).length ≤ offD offs i
  sorted : ∀ i j, i < j → j < rows.length →
    leVal (keyD rows i) < leVal (keyD rows j)

/-- The postcondition of `search` over the slot-map range `[s, e)`: a hit
returns an in-range index holding a key of equal little-endian value; a
miss returns the insertion point bracketing the query key. -/
def searchPost (rows : List (List Nat × List Nat)) (k : List Nat) (s e : Nat) :
    Except Nat Nat → Prop
  | .ok i => s ≤ i ∧ i < e ∧ leVal k = leVal (keyD rows i)
  | .error i => s ≤ i ∧ i ≤ e ∧
      (∀ j, s ≤ j → j < i → leVal (keyD rows j) < leVal k) ∧
      (∀ j, i ≤ j → j < e → leVal k < leVal (keyD rows j))

/-! ### Concrete traces used by the counterexample and bug theorems -/

/-- Eight saves of 905-byte rows, filling the page to 742 free bytes. -/
def c1FillPage : BTreePage :=
  (List.range 8).foldl (fun p i => (pageSave p [i + 1] (List.replicate 900 7)).1) emptyPage

/-- A ninth save whose row (742 bytes) plus slot-map element no longer fits. -/
def c1FailSave : BTreePage × Except RustyKVError Unit :=
  pageSave c1FillPage [20] (List.replicate 737 3)

/-- Save key `[1]` with the one-byte value `[2]` on an empty page. -/
def c2FirstSave : BTreePage × Except RustyKVError Unit :=
  pageSave emptyPage [1] [2]

/-- Re-save key `[1]` with a two-byte value: the update path rejects it. -/
def c2SecondSave : BTreePage × Except RustyKVError Unit :=
  pageSave c2FirstSave.1 [1] [3, 4]

/-- Save `[97] ↦ [10]` then `[98] ↦ [11]` on an empty page. -/
def c3TwoRows : BTreePage :=
  (pageSave (pageSave emptyPage [97] [10]).1 [98] [11]).1

/-- Delete the key `[98]`, which sits at slot-map index 1. -/
def c3AfterDelete : BTreePage × Except RustyKVError Unit :=
  pageDelete c3TwoRows [98]

/-- Save `[2] ↦ [7]` on an empty page. -/
def c4FirstSave : BTreePage × Except RustyKVError Unit :=
  pageSave emptyPage [2] [7]

/-- Re-save key `[2]` with the two-byte value `[8, 9]`. -/
def c4SecondSave : BTreePage × Except RustyKVError Unit :=
  pageSave c4FirstSave.1 [2] [8, 9]

/-- A two-slot pool: fetch page 0, page 1, page 1 again (a cache hit with
a full recency set), then page 2 (which must evict). -/
def c5Run : Option BPMState :=
  (((bpmGet (bpmNew 2) 0).bind (fun s => bpmGet s 1)).bind (fun s => bpmGet s 1)).bind
    (fun s => bpmGet s 2)

/-! ## Theorems -/

set_option maxRecDepth 100000

/-- Claim C1: the claim states that a `save` whose row plus slot-map
element exceeds the free space fails with `InsufficientSpace` and leaves
the page unchanged.  The failure is raised as claimed, but
`BTreePage::save` increments the header's slot count even when `insert`
has failed: on a page holding 8 rows (slot count 8) with 742 free bytes,
a save needing 744 bytes returns `InsufficientSpace` yet bumps the slot
count to 9, so the page is not unchanged. -/
theorem C1_failed_save_increments_slot_count :
    getSlotCount c1FillPage = 8 ∧
    (pageGetValue c1FillPage [3]).isSome = true ∧
    c1FillPage.fsEnd - c1FillPage.fsStart = 742 ∧
    4 + 1 + 737 + 2 > c1FillPage.fsEnd - c1FillPage.fsStart ∧
    c1FailSave.2 = .error .InsufficientSpace ∧
    getSlotCount c1FailSave.1 = 9 := by
  decide

/-- Claim C3 (counter-evidence): after `save([97],[10])` and
`save([98],[11])`, deleting `[98]` (slot-map index 1) returns `Ok` but the
shift loop of `delete_slot_map_element` starts one element too high, so
the slot-map entry of `[97]` is dropped and the deleted row's offset is
kept: afterwards `get([97])` misses, contradicting the claim that every
other stored key remains retrievable. -/
theorem C3_delete_at_index_one_loses_other_key :
    pageGetValue c3TwoRows [97] = some [10] ∧
    pageGetValue c3TwoRows [98] = some [11] ∧
    c3AfterDelete.2 = .ok () ∧
    pageGet c3AfterDelete.1 [98] = none ∧
    pageGet c3AfterDelete.1 [97] = none := by
  decide

/-- Claim C5 (counter-evidence): with a pool of exactly 2 slots, fetching
pages 0 and 1, re-fetching page 1 (a cache hit while the recency set is
full), then fetching page 2 must — per the claim — evict page 0 and only
page 0.  In the code, `LRUCacheManager::add` on the hit silently pops and
discards the LRU entry (page 0's slot), so the later eviction removes
page 1 instead, and page 0 stays in the lookup table. -/
theorem C5_hit_path_discards_lru_entry_and_evicts_wrong_page :
    c5Run.map (fun st => (lkGet st.lookup 0, lkGet st.lookup 1, lkGet st.lookup 2)) =
      some (some 1, none, some 0) := by
  decide

/-- Claim C2 (counterexample): on a page storing `[1] ↦ [2]`, saving key
`[1]` with the two-byte value `[3, 4]` fits easily in the free space
(9 ≤ 7990 bytes), yet `save` returns `InsufficientSpace` — the search
hits the stored key and `update` rejects any value whose length differs
from the stored one — and `get([1])` still returns `[2]`. -/
theorem C2_counterexample_same_key_different_length :
    c2FirstSave.2 = .ok () ∧
    4 + 1 + 2 + 2 ≤ c2FirstSave.1.fsEnd - c2FirstSave.1.fsStart ∧
    c2SecondSave.2 = .error .InsufficientSpace ∧
    pageGetValue c2SecondSave.1 [1] = some [2] := by
  decide

/-- Claim C4 (counterexample): `save([2],[7])` then `save([2],[8,9])`
(both rows fit with room to spare) does not make `get([2])` return
`[8, 9]`: the second save fails with `InsufficientSpace` because the new
value's length differs from the stored one, and `get([2])` still returns
`[7]`. -/
theorem C4_counterexample_unequal_value_lengths :
    c4FirstSave.2 = .ok () ∧
    4 + 1 + 2 + 2 ≤ c4FirstSave.1.fsEnd - c4FirstSave.1.fsStart ∧
    c4SecondSave.2 = .error .InsufficientSpace ∧
    pageGetValue c4SecondSave.1 [2] = some [7] := by
  decide

/-! ### Byte-buffer lemmas -/

theorem writeBytes_lt {f : Nat → Nat} {off : Nat} {bs : List Nat} {i : Nat}
    (h : i < off) : writeBytes f off bs i = f i := by
  simp only [writeBytes]
  rw [if_neg (by omega)]

theorem writeBytes_ge {f : Nat → Nat} {off : Nat} {bs : List Nat} {i : Nat}
    (h : off + bs.length ≤ i) : writeBytes f off bs i = f i := by
  simp only [writeBytes]
  rw [if_neg (by omega)]

theorem writeBytes_in {f : Nat → Nat} {off : Nat} {bs : List Nat} {i : Nat}
    (h1 : off ≤ i) (h2 : i < off + bs.length) :
    writeBytes f off bs i = bs.getD (i - off) 0 := by
  simp only [writeBytes]
  rw [if_pos ⟨h1, h2⟩]

theorem readBytes_length (f : Nat → Nat) (off len : Nat) :
    (readBytes f off len).length = len := by
  simp [readBytes]

theorem readBytes_getElem (f : Nat → Nat) (off len j : Nat)
    (h' : j < (readBytes f off len).length) :
    (readBytes f off len)[j] = f (off + j) := by
  simp [readBytes]

theorem readBytes_getD (f : Nat → Nat) (off len j : Nat) (h : j < len) :
    (readBytes f off len).getD j 0 = f (off + j) := by
  rw [List.getD_eq_getElem?_getD, List.getElem?_eq_getElem (by simp [readBytes]; omega)]
  simp [readBytes]

theorem readBytes_congr {f g : Nat → Nat} {off len : Nat}
    (h : ∀ j, j < len → f (off + j) = g (off + j)) :
    readBytes f off len = readBytes g off len := by
  simp only [readBytes]
  apply List.map_congr_left
  intro a ha
  exact h a (List.mem_range.mp ha)

theorem readBytes_writeBytes (f : Nat → Nat) (off : Nat) (bs : List Nat) :
    readBytes (writeBytes f off bs) off bs.length = bs := by
  apply List.ext_getElem
  · simp [readBytes]
  · intro j h1 h2
    rw [readBytes_getElem _ _ _ _ h1]
    rw [writeBytes_in (by omega) (by omega)]
    rw [Nat.add_sub_cancel_left]
    exact List.getD_eq_getElem bs 0 h2

theorem u16Bytes_length (n : Nat) : (u16Bytes n).length = 2 := rfl

theorem readU16_writeBytes_u16 (f : Nat → Nat) (off n : Nat) :
    readU16 (writeBytes f off (u16Bytes n)) off = n % 65536 := by
  simp only [readU16]
  rw [writeBytes_in (by omega) (by simp [u16Bytes]), writeBytes_in (by omega) (by simp [u16Bytes])]
  simp only [Nat.add_sub_cancel_left, Nat.sub_self, u16Bytes]
  simp only [List.getD_cons_zero, List.getD_cons_succ]
  omega

theorem setByte_eq {d : Nat → Nat} {i v : Nat} : setByte d i v i = v := by
  simp [setByte]

theorem setByte_ne {d : Nat → Nat} {i v j : Nat} (h : j ≠ i) : setByte d i v j = d j := by
  simp [setByte, h]

theorem copyLoopAscGo_apply (c : Nat) :
    ∀ (d : Nat → Nat) (lo j : Nat),
      copyLoopAscGo d lo c j = if lo ≤ j ∧ j < lo + c then d (j + 2) else d j := by
  induction c with
  | zero =>
    intro d lo j
    simp only [copyLoopAscGo]
    rw [if_neg (by omega)]
  | succ c ih =>
    intro d lo j
    simp only [copyLoopAscGo]
    rw [ih]
    by_cases h1 : lo + 1 ≤ j ∧ j < lo + 1 + c
    · rw [if_pos h1, if_pos (by omega), setByte_ne (by omega)]
    · rw [if_neg h1]
      by_cases h2 : j = lo
      · subst h2
        rw [setByte_eq, if_pos (by omega)]
      · rw [setByte_ne h2, if_neg (by omega)]

theorem copyLoopAsc_apply (d : Nat → Nat) (lo hi j : Nat) :
    copyLoopAsc d lo hi j = if lo ≤ j ∧ j < hi then d (j + 2) else d j := by
  simp only [copyLoopAsc]
  rw [copyLoopAscGo_apply]
  by_cases h : lo ≤ j ∧ j < hi
  · rw [if_pos (by omega), if_pos h]
  · rw [if_neg (by omega), if_neg h]

/-! ### `search` unfolding equations -/

theorem searchGo_congr (data : Nat → Nat) (sm : Nat) (key : List Nat) :
    ∀ f1 f2 s e, e - s ≤ f1 → e - s ≤ f2 →
      searchGo data sm key f1 s e = searchGo data sm key f2 s e := by
  intro f1
  induction f1 with
  | zero =>
    intro f2 s e h1 h2
    cases f2 with
    | zero => rfl
    | succ f2 =>
      simp only [searchGo]
      rw [if_pos (by omega)]
  | succ f1 ih =>
    intro f2 s e h1 h2
    cases f2 with
    | zero =>
      simp only [searchGo]
      rw [if_pos (by omega)]
    | succ f2 =>
      simp only [searchGo]
      by_cases hse : e ≤ s
      · rw [if_pos hse, if_pos hse]
      · rw [if_neg hse, if_neg hse]
        cases hc : cmpLeBytes key (pivotKeyAt data sm (s + (e - s) / 2)) with
        | eq => simp
        | lt =>
          simp only
          exact ih f2 s (s + (e - s) / 2) (by omega) (by omega)
        | gt =>
          simp only
          exact ih f2 (s + (e - s) / 2 + 1) e (by omega) (by omega)

theorem search_stop (data : Nat → Nat) (sm : Nat) (key : List Nat) (s e : Nat)
    (h : e ≤ s) : search data sm key s e = .error s := by
  simp only [search]
  have h0 : e - s = 0 := by omega
  rw [h0]
  rfl

theorem search_step (data : Nat → Nat) (sm : Nat) (key : List Nat) (s e : Nat)
    (h : s < e) :
    search data sm key s e =
      match cmpLeBytes key (pivotKeyAt data sm (s + (e - s) / 2)) with
      | .eq => .ok (s + (e - s) / 2)
      | .lt => search data sm key s (s + (e - s) / 2)
      | .gt => search data sm key (s + (e - s) / 2 + 1) e := by
  have hL : search data sm key s e = searchGo data sm key (e - s - 1 + 1) s e := by
    simp only [search]
    congr 1
    omega
  rw [hL]
  simp only [searchGo]
  rw [if_neg (by omega)]
  cases hc : cmpLeBytes key (pivotKeyAt data sm (s + (e - s) / 2)) with
  | eq => simp only [hc]
  | lt =>
    simp only [hc, search]
    exact searchGo_congr data sm key (e - s - 1) (s + (e - s) / 2 - s) s
      (s + (e - s) / 2) (by omega) (by omega)
  | gt =>
    simp only [hc, search]
    exact searchGo_congr data sm key (e - s - 1) (e - (s + (e - s) / 2 + 1))
      (s + (e - s) / 2 + 1) e (by omega) (by omega)

/-! ### The byte-reversed comparison as little-endian integer order -/

theorem getD_lt_256 {a : List Nat} (ha : ∀ b ∈ a, b < 256) (n : Nat) :
    a.getD n 0 < 256 := by
  by_cases h : n < a.length
  · rw [List.getD_eq_getElem a 0 h]
    exact ha _ (List.getElem_mem h)
  · rw [List.getD_eq_default a 0 (by omega)]
    omega

theorem leValN_nil (n : Nat) : leValN [] n = 0 := by
  induction n with
  | zero => rfl
  | succ n ih => simp [leValN, ih]

theorem leValN_lt {a : List Nat} (ha : ∀ b ∈ a, b < 256) (n : Nat) :
    leValN a n < 256 ^ n := by
  induction n with
  | zero => simp [leValN]
  | succ n ih =>
    have hg : a.getD n 0 < 256 := getD_lt_256 ha n
    calc leValN a (n + 1) = leValN a n + a.getD n 0 * 256 ^ n := rfl
    _ < 256 ^ n + a.getD n 0 * 256 ^ n := by omega
    _ = (a.getD n 0 + 1) * 256 ^ n := by ring
    _ ≤ 256 * 256 ^ n := Nat.mul_le_mul_right _ (by omega)
    _ = 256 ^ (n + 1) := by ring

theorem compare_add_mul_left (la lb g P : Nat) :
    compare (la + g * P) (lb + g * P) = compare la lb := by
  rcases Nat.lt_trichotomy la lb with h | h | h
  · rw [Nat.compare_eq_lt.mpr h, Nat.compare_eq_lt.mpr (by omega)]
  · rw [h, Nat.compare_eq_eq.mpr rfl, Nat.compare_eq_eq.mpr rfl]
  · rw [Nat.compare_eq_gt.mpr h, Nat.compare_eq_gt.mpr (by omega)]

theorem compare_add_mul_ne {la lb ga gb P : Nat} (hla : la < P) (hlb : lb < P)
    (hne : ga ≠ gb) :
    compare (la + ga * P) (lb + gb * P) = compare ga gb := by
  have key : ∀ x y gx gy : Nat, x < P → gx < gy →
      x + gx * P < y + gy * P := by
    intro x y gx gy hx hgl
    calc x + gx * P < P + gx * P := by omega
    _ = (gx + 1) * P := by ring
    _ ≤ gy * P := Nat.mul_le_mul_right _ (by omega)
    _ ≤ y + gy * P := Nat.le_add_left _ _
  rcases Nat.lt_trichotomy ga gb with h | h | h
  · rw [Nat.compare_eq_lt.mpr h, Nat.compare_eq_lt.mpr (key la lb ga gb hla h)]
  · omega
  · rw [Nat.compare_eq_gt.mpr h, Nat.compare_eq_gt.mpr (key lb la gb ga hlb h)]

theorem cmpFromAux_eq_compare {a b : List Nat} (ha : ∀ x ∈ a, x < 256)
    (hb : ∀ x ∈ b, x < 256) (n : Nat) :
    cmpFromAux a b n = compare (leValN a n) (leValN b n) := by
  induction n with
  | zero => simp [cmpFromAux, leValN, Nat.compare_eq_eq.mpr rfl]
  | succ n ih =>
    simp only [cmpFromAux, leValN]
    by_cases h : a.getD n 0 = b.getD n 0
    · rw [if_pos h, ih, h, compare_add_mul_left]
    · rw [if_neg h,
        compare_add_mul_ne (leValN_lt ha n) (leValN_lt hb n) (by omega)]

theorem leValN_cons (b : Nat) (t : List Nat) :
    ∀ n, leValN (b :: t) (n + 1) = b + 256 * leValN t n := by
  intro n
  induction n with
  | zero => simp [leValN]
  | succ n ih =>
    calc leValN (b :: t) (n + 2)
        = leValN (b :: t) (n + 1) + (b :: t).getD (n + 1) 0 * 256 ^ (n + 1) := rfl
    _ = b + 256 * leValN t n + t.getD n 0 * 256 ^ (n + 1) := by
        rw [ih]; rfl
    _ = b + 256 * (leValN t n + t.getD n 0 * 256 ^ n) := by ring
    _ = b + 256 * leValN t (n + 1) := rfl

theorem leValN_eq_leVal : ∀ (a : List Nat) (n : Nat), a.length ≤ n →
    leValN a n = leVal a := by
  intro a
  induction a with
  | nil => intro n _; rw [leValN_nil]; rfl
  | cons b t ih =>
    intro n hn
    obtain ⟨m, rfl⟩ : ∃ m, n = m + 1 := ⟨n - 1, by simp at hn; omega⟩
    rw [leValN_cons, ih m (by simp at hn; omega)]
    rfl

theorem cmpLeBytes_eq_compare_leVal {a b : List Nat} (ha : ∀ x ∈ a, x < 256)
    (hb : ∀ x ∈ b, x < 256) :
    cmpLeBytes a b = compare (leVal a) (leVal b) := by
  rw [cmpLeBytes, cmpFromAux_eq_compare ha hb,
    leValN_eq_leVal a _ (le_max_left _ _), leValN_eq_leVal b _ (le_max_right _ _)]

theorem leVal_eq_sum (a : List Nat) :
    leVal a = ∑ i ∈ Finset.range a.length, a.getD i 0 * 256 ^ i := by
  have aux : ∀ n, leValN a n = ∑ i ∈ Finset.range n, a.getD i 0 * 256 ^ i := by
    intro n
    induction n with
    | zero => simp [leValN]
    | succ n ih => rw [Finset.sum_range_succ, ← ih]; rfl
  rw [← aux a.length, leValN_eq_leVal a a.length le_rfl]

/-! ### Zero-padding of keys -/

theorem getD_append_replicate_zero (k : List Nat) (m i : Nat) :
    (k ++ List.replicate m 0).getD i 0 = k.getD i 0 := by
  by_cases h : i < k.length
  · rw [List.getD_append _ _ _ _ h]
  · rw [List.getD_append_right _ _ _ _ (by omega)]
    by_cases h2 : i - k.length < m
    · rw [List.getD_eq_getElem _ 0 (by simp; omega), List.getElem_replicate]
      rw [List.getD_eq_default _ _ (by omega)]
    · rw [List.getD_eq_default _ _ (by simp; omega), List.getD_eq_default _ _ (by omega)]

theorem cmpFromAux_congr {a a' b b' : List Nat}
    (ha : ∀ i, a.getD i 0 = a'.getD i 0) (hb : ∀ i, b.getD i 0 = b'.getD i 0) :
    ∀ n, cmpFromAux a b n = cmpFromAux a' b' n := by
  intro n
  induction n with
  | zero => rfl
  | succ n ih => simp only [cmpFromAux, ha, hb, ih]

theorem cmpFromAux_of_max_le {a b : List Nat} :
    ∀ n, max a.length b.length ≤ n → cmpFromAux a b n = cmpLeBytes a b := by
  intro n
  induction n with
  | zero =>
    intro h
    rw [cmpLeBytes]
    have : max a.length b.length = 0 := by omega
    rw [this]
  | succ n ih =>
    intro h
    by_cases he : max a.length b.length = n + 1
    · rw [cmpLeBytes, he]
    · have hn : max a.length b.length ≤ n := by omega
      simp only [cmpFromAux]
      rw [List.getD_eq_default _ _ (by omega), List.getD_eq_default _ _ (by omega),
        if_pos rfl]
      exact ih hn

theorem cmpLeBytes_pad_right (k : List Nat) (m : Nat) (x : List Nat) :
    cmpLeBytes (k ++ List.replicate m 0) x = cmpLeBytes k x := by
  rw [cmpLeBytes,
    cmpFromAux_congr (fun i => getD_append_replicate_zero k m i) (fun _ => rfl) _,
    cmpFromAux_of_max_le _ (by simp; omega)]

theorem cmpFromAux_self (a : List Nat) : ∀ n, cmpFromAux a a n = .eq := by
  intro n
  induction n with
  | zero => rfl
  | succ n ih => simp [cmpFromAux, ih]

theorem cmpLeBytes_pad_self (k : List Nat) (m : Nat) :
    cmpLeBytes k (k ++ List.replicate m 0) = .eq := by
  rw [cmpLeBytes,
    cmpFromAux_congr (fun _ => rfl) (fun i => (getD_append_replicate_zero k m i)) _,
    cmpFromAux_self]

theorem searchGo_key_congr {k1 k2 : List Nat}
    (hk : ∀ x, cmpLeBytes k1 x = cmpLeBytes k2 x) (data : Nat → Nat) (sm : Nat) :
    ∀ fuel s e, searchGo data sm k1 fuel s e = searchGo data sm k2 fuel s e := by
  intro fuel
  induction fuel with
  | zero => intro s e; rfl
  | succ fuel ih =>
    intro s e
    simp only [searchGo, hk]
    by_cases hse : e ≤ s
    · rw [if_pos hse, if_pos hse]
    · rw [if_neg hse, if_neg hse]
      cases cmpLeBytes k2 (pivotKeyAt data sm (s + (e - s) / 2)) with
      | eq => rfl
      | lt => exact ih s (s + (e - s) / 2)
      | gt => exact ih (s + (e - s) / 2 + 1) e

theorem search_key_congr {k1 k2 : List Nat}
    (hk : ∀ x, cmpLeBytes k1 x = cmpLeBytes k2 x) (data : Nat → Nat) (sm s e : Nat) :
    search data sm k1 s e = search data sm k2 s e := by
  rw [search, search, searchGo_key_congr hk]

/-- Claim C6: `search` over an empty slot-map range returns the miss
insertion point `start`; over a non-empty range it takes
`pivot = start + (end - start) / 2`, compares the query key with the
pivot row's key under `cmp_le_bytes`, returns the pivot index on
equality, and recurses on `[start, pivot)` / `[pivot+1, end)`; and
`cmp_le_bytes` orders byte arrays (of `u8` values) exactly like the
little-endian integer value `∑ i, a[i] * 256 ^ i`, the shorter array
zero-padded. -/
theorem C6_search_structure_and_cmp_is_le_integer_order :
    (∀ (data : Nat → Nat) (sm : Nat) (key : List Nat) (s e : Nat), e ≤ s →
       search data sm key s e = .error s) ∧
    (∀ (data : Nat → Nat) (sm : Nat) (key : List Nat) (s e : Nat), s < e →
       search data sm key s e =
         match cmpLeBytes key (pivotKeyAt data sm (s + (e - s) / 2)) with
         | .eq => .ok (s + (e - s) / 2)
         | .lt => search data sm key s (s + (e - s) / 2)
         | .gt => search data sm key (s + (e - s) / 2 + 1) e) ∧
    (∀ a b : List Nat, (∀ x ∈ a, x < 256) → (∀ x ∈ b, x < 256) →
       cmpLeBytes a b = compare (leVal a) (leVal b)) ∧
    (∀ a : List Nat, leVal a = ∑ i ∈ Finset.range a.length, a.getD i 0 * 256 ^ i) := by
  refine ⟨search_stop, search_step, ?_, leVal_eq_sum⟩
  intro a b ha hb
  exact cmpLeBytes_eq_compare_leVal ha hb

/-- Witness for C6 at concrete inputs. -/
theorem C6_search_structure_and_cmp_is_le_integer_order_witness :
    search (fun _ => 0) 7996 [5] 3 3 = .error 3 ∧
    search (fun _ => 0) 7996 [5] 0 1 =
      (match cmpLeBytes [5] (pivotKeyAt (fun _ => 0) 7996 0) with
       | .eq => .ok 0
       | .lt => search (fun _ => 0) 7996 [5] 0 0
       | .gt => search (fun _ => 0) 7996 [5] 1 1) ∧
    cmpLeBytes [1, 2] [3] = compare (leVal [1, 2]) (leVal [3]) := by
  refine ⟨?_, ?_, ?_⟩
  · exact C6_search_structure_and_cmp_is_le_integer_order.1 _ _ _ 3 3 le_rfl
  · exact C6_search_structure_and_cmp_is_le_integer_order.2.1 _ _ _ 0 1 (by omega)
  · exact C6_search_structure_and_cmp_is_le_integer_order.2.2.1 [1, 2] [3]
      (by decide) (by decide)

/-- Claim C10: the engine's comparison treats `k` and `k` followed by `m`
zero bytes as equal (and, more generally, zero-padding a key never
changes any comparison), so `get` with the padded key reads exactly the
row stored under `k`, and a `save` with the padded key on a page whose
search finds `k` (the update path) behaves exactly like a save of `k`. -/
theorem C10_zero_padded_key_aliases_stored_key :
    (∀ (k : List Nat) (m : Nat), cmpLeBytes k (k ++ List.replicate m 0) = .eq) ∧
    (∀ (k x : List Nat) (m : Nat),
       cmpLeBytes (k ++ List.replicate m 0) x = cmpLeBytes k x) ∧
    (∀ (p : BTreePage) (k : List Nat) (m : Nat),
       pageGet p (k ++ List.replicate m 0) = pageGet p k) ∧
    (∀ (p : BTreePage) (k v : List Nat) (m idx : Nat),
       search p.data p.smStart k 0 (getSlotCount p) = .ok idx →
       pageSave p (k ++ List.replicate m 0) v = pageSave p k v) := by
  refine ⟨cmpLeBytes_pad_self, fun k x m => cmpLeBytes_pad_right k m x, ?_, ?_⟩
  · intro p k m
    simp only [pageGet, bodyGet]
    rw [search_key_congr (fun x => cmpLeBytes_pad_right k m x)]
  · intro p k v m idx h
    have hs : search p.data p.smStart (k ++ List.replicate m 0) 0 (getSlotCount p)
        = .ok idx := by
      rw [search_key_congr (fun x => cmpLeBytes_pad_right k m x)]
      exact h
    simp only [pageSave, hs, h]

/-- Witness for C10: on the page holding `[1] ↦ [2]`, the padded key
`[1, 0, 0]` saves through the update path exactly like `[1]`. -/
theorem C10_zero_padded_key_aliases_stored_key_witness :
    pageSave c2FirstSave.1 ([1] ++ List.replicate 2 0) [9] =
      pageSave c2FirstSave.1 [1] [9] := by
  exact C10_zero_padded_key_aliases_stored_key.2.2.2 c2FirstSave.1 [1] [9] 2 0
    (by decide)

/-! ### Disk manager: `read_page` zero-fill -/

theorem getD_drop (l : List Nat) (a j : Nat) :
    (l.drop a).getD j 0 = l.getD (a + j) 0 := by
  rw [List.getD_eq_getElem?_getD, List.getD_eq_getElem?_getD, List.getElem?_drop]

theorem getD_take (l : List Nat) (n m : Nat) :
    (l.take n).getD m 0 = if m < n then l.getD m 0 else 0 := by
  rw [List.getD_eq_getElem?_getD, List.getElem?_take]
  by_cases h : m < n
  · rw [if_pos h, if_pos h, List.getD_eq_getElem?_getD]
  · rw [if_neg h, if_neg h]
    rfl

theorem getD_replicate_zero (n j : Nat) :
    (List.replicate n (0 : Nat)).getD j 0 = 0 := by
  by_cases h : j < n
  · rw [List.getD_eq_getElem _ 0 (by simp; omega), List.getElem_replicate]
  · rw [List.getD_eq_default _ _ (by simp; omega)]

theorem readPageGo_stop (file : List Nat) (off : Nat) (buf : List Nat) (br fuel : Nat)
    (h : ¬ br < PAGE_SIZE) :
    readPageGo file off buf br (fuel + 1) = buf := by
  simp only [readPageGo]
  rw [if_neg h]

theorem readPageGo_fill (file : List Nat) (off : Nat) (buf : List Nat) (br fuel : Nat)
    (h : br < PAGE_SIZE)
    (hc : ((file.drop (off + br)).take (PAGE_SIZE - br)).length = 0) :
    readPageGo file off buf br (fuel + 1) =
      listSplice buf br (List.replicate (PAGE_SIZE - br) 0) := by
  simp only [readPageGo]
  rw [if_pos h, if_pos hc]

theorem readPageGo_read (file : List Nat) (off : Nat) (buf : List Nat) (br fuel : Nat)
    (h : br < PAGE_SIZE)
    (hc : ¬ ((file.drop (off + br)).take (PAGE_SIZE - br)).length = 0) :
    readPageGo file off buf br (fuel + 1) =
      readPageGo file off (listSplice buf br ((file.drop (off + br)).take (PAGE_SIZE - br)))
        (br + ((file.drop (off + br)).take (PAGE_SIZE - br)).length) fuel := by
  simp only [readPageGo]
  rw [if_pos h, if_neg hc]

theorem listSplice_prefix_zero (buf chunk : List Nat) :
    listSplice buf 0 chunk = chunk ++ buf.drop chunk.length := by
  simp [listSplice]

theorem listSplice_exact (c x y : List Nat) (h : x.length = y.length) :
    listSplice (c ++ x) c.length y = c ++ y := by
  simp only [listSplice]
  rw [List.take_left]
  rw [@List.drop_eq_nil_of_le _ (c ++ x) (c.length + y.length) (by simp [h])]
  simp

/-- The filled buffer of `read_page` is the available file bytes from the
page offset, zero-padded to `PAGE_SIZE`. -/
theorem readPage_eq (file : List Nat) (id : Nat) :
    readPage file id =
      (file.drop (id * PAGE_SIZE)).take PAGE_SIZE
        ++ List.replicate (PAGE_SIZE - (file.length - id * PAGE_SIZE)) 0 := by
  have hpos : (0 : Nat) < PAGE_SIZE := by norm_num [PAGE_SIZE]
  show readPageGo file (id * PAGE_SIZE) (List.replicate PAGE_SIZE 0) 0 2 = _
  by_cases hce : ((file.drop (id * PAGE_SIZE + 0)).take (PAGE_SIZE - 0)).length = 0
  · rw [readPageGo_fill file _ _ 0 1 hpos hce]
    have hL : file.length - id * PAGE_SIZE = 0 := by
      simp only [List.length_take, List.length_drop] at hce
      omega
    have hnil : (file.drop (id * PAGE_SIZE)).take PAGE_SIZE = [] := by
      apply List.length_eq_zero.mp
      simp only [List.length_take, List.length_drop]
      omega
    rw [hnil, hL]
    rw [listSplice_prefix_zero]
    simp [List.drop_replicate]
  · rw [readPageGo_read file _ _ 0 1 hpos hce]
    simp only [Nat.add_zero, Nat.sub_zero, Nat.zero_add] at hce ⊢
    rw [listSplice_prefix_zero, List.drop_replicate]
    by_cases hfull : ((file.drop (id * PAGE_SIZE)).take PAGE_SIZE).length < PAGE_SIZE
    · have hsecond : ((file.drop (id * PAGE_SIZE
          + ((file.drop (id * PAGE_SIZE)).take PAGE_SIZE).length)).take
          (PAGE_SIZE - ((file.drop (id * PAGE_SIZE)).take PAGE_SIZE).length)).length = 0 := by
        simp only [List.length_take, List.length_drop] at hfull ⊢
        omega
      rw [readPageGo_fill file _ _ _ 0 hfull hsecond]
      rw [listSplice_exact _ _ _ (by simp)]
      have hcl : ((file.drop (id * PAGE_SIZE)).take PAGE_SIZE).length
          = file.length - id * PAGE_SIZE := by
        simp only [List.length_take, List.length_drop] at hfull ⊢
        omega
      rw [hcl]
    · rw [readPageGo_stop file _ _ _ 0 (by omega)]
      have hcl : ((file.drop (id * PAGE_SIZE)).take PAGE_SIZE).length = PAGE_SIZE := by
        simp only [List.length_take, List.length_drop] at hfull ⊢
        omega
      have hL : PAGE_SIZE - (file.length - id * PAGE_SIZE) = 0 := by
        simp only [List.length_take, List.length_drop] at hcl
        omega
      rw [hcl, hL, Nat.sub_self]

theorem readPage_length (file : List Nat) (id : Nat) :
    (readPage file id).length = PAGE_SIZE := by
  rw [readPage_eq]
  simp only [List.length_append, List.length_take, List.length_drop,
    List.length_replicate]
  omega

theorem readPage_getD (file : List Nat) (id j : Nat) (hj : j < PAGE_SIZE) :
    (readPage file id).getD j 0 =
      if id * PAGE_SIZE + j < file.length then file.getD (id * PAGE_SIZE + j) 0
      else 0 := by
  rw [readPage_eq]
  have hclen : ((file.drop (id * PAGE_SIZE)).take PAGE_SIZE).length
      = min PAGE_SIZE (file.length - id * PAGE_SIZE) := by
    simp [List.length_take, List.length_drop]
  by_cases h : j < min PAGE_SIZE (file.length - id * PAGE_SIZE)
  · rw [List.getD_append _ _ _ _ (by omega)]
    rw [getD_take, if_pos (by omega), getD_drop]
    rw [if_pos (by omega)]
  · rw [List.getD_append_right _ _ _ _ (by omega)]
    rw [getD_replicate_zero]
    rw [if_neg (by omega)]

/-- Claim C7: for every page id and file contents, `read_page` fills the
buffer with the file bytes of `[id * PAGE_SIZE, (id+1) * PAGE_SIZE)`,
zero-filling every position at or beyond the file's length; in particular
a page entirely beyond the end of the file reads as all zeros rather than
failing. -/
theorem C7_read_page_zero_fills_short_reads :
    ∀ (file : List Nat) (id : Nat),
      (readPage file id).length = PAGE_SIZE ∧
      (∀ j, j < PAGE_SIZE →
        (readPage file id).getD j 0 =
          if id * PAGE_SIZE + j < file.length then file.getD (id * PAGE_SIZE + j) 0
          else 0) ∧
      (file.length ≤ id * PAGE_SIZE → readPage file id = List.replicate PAGE_SIZE 0) := by
  intro file id
  refine ⟨readPage_length file id, fun j hj => readPage_getD file id j hj, fun h => ?_⟩
  rw [readPage_eq]
  rw [List.drop_eq_nil_of_le (by omega)]
  have h0 : file.length - id * PAGE_SIZE = 0 := by omega
  rw [h0]
  rfl

/-- Witness for C7 on a three-byte file: page 0 reads the three bytes then
zeros, and page 1 (entirely beyond the end of the file) reads all zeros. -/
theorem C7_read_page_zero_fills_short_reads_witness :
    (readPage [3, 4, 5] 0).getD 1 0 =
      (if 0 * PAGE_SIZE + 1 < ([3, 4, 5] : List Nat).length
       then ([3, 4, 5] : List Nat).getD (0 * PAGE_SIZE + 1) 0 else 0) ∧
    (readPage [3, 4, 5] 1).length = PAGE_SIZE ∧
    readPage [3, 4, 5] 1 = List.replicate PAGE_SIZE 0 := by
  refine ⟨(C7_read_page_zero_fills_short_reads [3, 4, 5] 0).2.1 1 (by norm_num [PAGE_SIZE]),
    (C7_read_page_zero_fills_short_reads [3, 4, 5] 1).1,
    (C7_read_page_zero_fills_short_reads [3, 4, 5] 1).2.2 (by norm_num [PAGE_SIZE])⟩

/-! ### Buffer pool eviction -/

theorem lkGet_lkRemove (l : List (Nat × Nat)) (k : Nat) :
    lkGet (lkRemove l k) k = none := by
  have h : (lkRemove l k).find? (fun q => q.1 = k) = none := by
    apply List.find?_eq_none.mpr
    intro x hx
    simp only [lkRemove, List.mem_filter] at hx
    simpa using hx.2
  simp [lkGet, h]

theorem writePage_prefix_length (file : List Nat) (id : Nat) :
    (file.take (id * PAGE_SIZE) ++ List.replicate (id * PAGE_SIZE - file.length) 0).length
      = id * PAGE_SIZE := by
  simp only [List.length_append, List.length_take, List.length_replicate]
  omega

theorem writePage_getD (file buf : List Nat) (id j : Nat) (hj : j < buf.length) :
    (writePage file id buf).getD (id * PAGE_SIZE + j) 0 = buf.getD j 0 := by
  simp only [writePage]
  rw [List.append_assoc]
  rw [List.getD_append_right _ _ _ _ (by rw [writePage_prefix_length]; omega)]
  rw [writePage_prefix_length, Nat.add_sub_cancel_left]
  rw [List.getD_append _ _ _ _ hj]

theorem writePage_length_ge (file buf : List Nat) (id : Nat) :
    id * PAGE_SIZE + buf.length ≤ (writePage file id buf).length := by
  simp only [writePage, List.length_append, List.length_take, List.length_replicate,
    List.length_drop]
  omega

theorem readPage_writePage (file buf : List Nat) (id : Nat) (h : buf.length = PAGE_SIZE) :
    readPage (writePage file id buf) id = buf := by
  apply List.ext_getElem
  · rw [readPage_length, h]
  · intro j h1 h2
    have hj : j < PAGE_SIZE := by rw [readPage_length] at h1; exact h1
    rw [← List.getD_eq_getElem _ 0 h1, ← List.getD_eq_getElem _ 0 h2]
    rw [readPage_getD _ _ _ hj]
    rw [if_pos (by have := writePage_length_ge file buf id; omega)]
    exact writePage_getD file buf id j (by omega)

/-- Claim C8: when the buffer pool evicts a slot, the evicted `PageId` is
removed from the lookup table; if the slot's dirty flag is set, the page's
bytes on disk afterwards equal the frame's in-memory bytes and the flag is
cleared; if the flag is not set, the backing file is untouched. -/
theorem C8_evict_slot_write_back (st : BPMState) (c : Nat) (rest : List Nat) (pid : Nat)
    (hc : st.cache = c :: rest)
    (hpid : (st.meta.getD c (none, false)).1 = some pid)
    (hcm : c < st.meta.length)
    (hlen : (st.pool.getD c []).length = PAGE_SIZE) :
    ∃ st', evictSlot st = some (c, st') ∧
      lkGet st'.lookup pid = none ∧
      ((st.meta.getD c (none, false)).2 = true →
        readPage st'.file pid = st.pool.getD c [] ∧
        (st'.meta.getD c (none, false)).2 = false) ∧
      ((st.meta.getD c (none, false)).2 = false → st'.file = st.file) := by
  cases hd : (st.meta.getD c (none, false)).2 with
  | true =>
    have hev : evictSlot st = some (c, { st with
        cache := rest, lookup := lkRemove st.lookup pid,
        file := writePage st.file pid (st.pool.getD c []),
        meta := st.meta.set c (some pid, false) }) := by
      simp only [evictSlot, hc, hpid, hd, if_true]
    refine ⟨_, hev, lkGet_lkRemove st.lookup pid, fun _ => ⟨?_, ?_⟩, fun hf => ?_⟩
    · exact readPage_writePage st.file (st.pool.getD c []) pid hlen
    · rw [List.getD_eq_getElem _ _ (by simpa using hcm)]
      rw [List.getElem_set_self]
    · simp at hf
  | false =>
    have hev : evictSlot st = some (c, { st with
        cache := rest, lookup := lkRemove st.lookup pid }) := by
      simp only [evictSlot, hc, hpid, hd, if_false]
      rw [if_neg (by simp)]
    refine ⟨_, hev, lkGet_lkRemove st.lookup pid, fun ht => ?_, fun _ => rfl⟩
    simp at ht

/-- Witness for C8: a one-slot pool holding a dirty page 0 whose frame is
all-sevens; eviction writes the frame to disk and clears the flag. -/
theorem C8_evict_slot_write_back_witness :
    ∃ st', evictSlot
        { file := [], pool := [List.replicate PAGE_SIZE 7],
          meta := [(some 0, true)], lookup := [(0, 0)], cache := [0],
          cacheCap := 1, vacant := [] } = some (0, st') ∧
      lkGet st'.lookup 0 = none ∧
      ((([((some 0 : Option Nat), true)].getD 0 (none, false)).2 = true →
        readPage st'.file 0 = [List.replicate PAGE_SIZE 7].getD 0 [] ∧
        (st'.meta.getD 0 (none, false)).2 = false)) ∧
      ((([((some 0 : Option Nat), true)].getD 0 (none, false)).2 = false →
        st'.file = ([] : List Nat))) := by
  exact C8_evict_slot_write_back _ 0 [] 0 rfl rfl (by decide)
    (by simp)

/-! ### Effect of writing one row -/

theorem readU16_congr_pt {f g : Nat → Nat} {a : Nat}
    (h0 : f a = g a) (h1 : f (a + 1) = g (a + 1)) : readU16 f a = readU16 g a := by
  simp [readU16, h0, h1]

theorem rowSetKey_keySize (data : Nat → Nat) (ns : Nat) (k : List Nat)
    (hkl : k.length < 65536) :
    rowGetKeySize (rowSetKey data ns k) ns = k.length := by
  simp only [rowGetKeySize, rowSetKey, ROW_HEADER_SIZE]
  rw [readU16_congr_pt (writeBytes_lt (by omega)) (writeBytes_lt (by omega))]
  rw [readU16_writeBytes_u16]
  omega

theorem rowWrite_out (data : Nat → Nat) (ns : Nat) (k v : List Nat)
    (hkl : k.length < 65536) (a : Nat)
    (ha : a < ns ∨ ns + 4 + k.length + v.length ≤ a) :
    rowSetValue (rowSetKey data ns k) ns v a = data a := by
  simp only [rowSetValue, rowSetKey_keySize data ns k hkl, ROW_HEADER_SIZE]
  have h1 : writeBytes (rowSetKey data ns k) (ns + 2) (u16Bytes v.length) a
      = rowSetKey data ns k a := by
    rcases ha with h | h
    · exact writeBytes_lt (by omega)
    · exact writeBytes_ge (by simp only [u16Bytes_length]; omega)
  rw [show (writeBytes (writeBytes (rowSetKey data ns k) (ns + 2) (u16Bytes v.length))
      (ns + 4 + k.length) v) a
      = writeBytes (rowSetKey data ns k) (ns + 2) (u16Bytes v.length) a from by
    rcases ha with h | h
    · exact writeBytes_lt (by omega)
    · exact writeBytes_ge (by omega)]
  rw [h1]
  simp only [rowSetKey, ROW_HEADER_SIZE]
  rcases ha with h | h
  · rw [writeBytes_lt (by omega), writeBytes_lt (by omega)]
  · rw [writeBytes_ge (by omega), writeBytes_ge (by simp only [u16Bytes_length]; omega)]

theorem rowWrite_enc_k (data : Nat → Nat) (ns : Nat) (k v : List Nat)
    (hkl : k.length < 65536) :
    readU16 (rowSetValue (rowSetKey data ns k) ns v) ns = k.length := by
  simp only [rowSetValue, rowSetKey_keySize data ns k hkl, ROW_HEADER_SIZE]
  rw [readU16_congr_pt (writeBytes_lt (by omega)) (writeBytes_lt (by omega))]
  rw [readU16_congr_pt (writeBytes_lt (by omega)) (writeBytes_lt (by omega))]
  exact rowSetKey_keySize data ns k hkl

theorem rowWrite_enc_v (data : Nat → Nat) (ns : Nat) (k v : List Nat)
    (hkl : k.length < 65536) (hvl : v.length < 65536) :
    readU16 (rowSetValue (rowSetKey data ns k) ns v) (ns + 2) = v.length := by
  simp only [rowSetValue, rowSetKey_keySize data ns k hkl, ROW_HEADER_SIZE]
  rw [readU16_congr_pt (writeBytes_lt (by omega)) (writeBytes_lt (by omega))]
  rw [readU16_writeBytes_u16]
  omega

theorem rowWrite_bytes_k (data : Nat → Nat) (ns : Nat) (k v : List Nat)
    (hkl : k.length < 65536) :
    readBytes (rowSetValue (rowSetKey data ns k) ns v) (ns + 4) k.length = k := by
  simp only [rowSetValue, rowSetKey_keySize data ns k hkl, ROW_HEADER_SIZE]
  rw [readBytes_congr (fun j hj => writeBytes_lt (by omega))]
  rw [readBytes_congr (fun j hj => writeBytes_ge (by simp only [u16Bytes_length]; omega))]
  simp only [rowSetKey, ROW_HEADER_SIZE]
  exact readBytes_writeBytes _ _ k

theorem rowWrite_bytes_v (data : Nat → Nat) (ns : Nat) (k v : List Nat)
    (hkl : k.length < 65536) :
    readBytes (rowSetValue (rowSetKey data ns k) ns v) (ns + 4 + k.length) v.length
      = v := by
  simp only [rowSetValue, rowSetKey_keySize data ns k hkl, ROW_HEADER_SIZE]
  exact readBytes_writeBytes _ _ v

/-! ### `insAt` and `List.set` index lemmas -/

theorem getD_take_lt {α : Type} (l : List α) (n m : Nat) (d : α) (h : m < n) :
    (l.take n).getD m d = l.getD m d := by
  rw [List.getD_eq_getElem?_getD, List.getElem?_take, if_pos h,
    ← List.getD_eq_getElem?_getD]

theorem getD_drop_add {α : Type} (l : List α) (a j : Nat) (d : α) :
    (l.drop a).getD j d = l.getD (a + j) d := by
  rw [List.getD_eq_getElem?_getD, List.getD_eq_getElem?_getD, List.getElem?_drop]

theorem insAt_length {α : Type} (l : List α) (i : Nat) (x : α) (h : i ≤ l.length) :
    (insAt l i x).length = l.length + 1 := by
  simp only [insAt, List.length_append, List.length_take, List.length_cons,
    List.length_drop]
  omega

theorem insAt_getD_lt {α : Type} (l : List α) (i : Nat) (x : α) (j : Nat) (d : α)
    (hj : j < i) (hi : i ≤ l.length) : (insAt l i x).getD j d = l.getD j d := by
  simp only [insAt]
  rw [List.getD_append _ _ _ _ (by simp [List.length_take]; omega)]
  exact getD_take_lt l i j d hj

theorem insAt_getD_self {α : Type} (l : List α) (i : Nat) (x : α) (d : α)
    (hi : i ≤ l.length) : (insAt l i x).getD i d = x := by
  simp only [insAt]
  rw [List.getD_append_right _ _ _ _ (by simp [List.length_take])]
  have h0 : i - (l.take i).length = 0 := by simp [List.length_take]; omega
  rw [h0]
  rfl

theorem insAt_getD_gt {α : Type} (l : List α) (i : Nat) (x : α) (j : Nat) (d : α)
    (hj : i < j) (hi : i ≤ l.length) : (insAt l i x).getD j d = l.getD (j - 1) d := by
  simp only [insAt]
  rw [List.getD_append_right _ _ _ _ (by simp [List.length_take]; omega)]
  have h0 : j - (l.take i).length = (j - i - 1) + 1 := by simp [List.length_take]; omega
  rw [h0, List.getD_cons_succ, getD_drop_add]
  congr 1
  omega

theorem getD_set_self {α : Type} (l : List α) (i : Nat) (x : α) (d : α)
    (h : i < l.length) : (l.set i x).getD i d = x := by
  rw [List.getD_eq_getElem _ _ (by simpa using h), List.getElem_set_self]

theorem getD_set_ne {α : Type} (l : List α) (i : Nat) (x : α) (j : Nat) (d : α)
    (h : i ≠ j) : (l.set i x).getD j d = l.getD j d := by
  rw [List.getD_eq_getElem?_getD, List.getElem?_set_ne h, ← List.getD_eq_getElem?_getD]

/-! ### Binary search correctness over a well-formed page -/

theorem pivotKeyAt_inv {p : BTreePage} {rows : List (List Nat × List Nat)}
    {offs : List Nat} (hInv : PageInv p rows offs) (i : Nat) (hi : i < rows.length) :
    pivotKeyAt p.data p.smStart i = keyD rows i := by
  simp only [pivotKeyAt, rowOffAt, rowGetKey, rowGetKeySize, SLOT_MAP_ELEMENT_SIZE,
    ROW_HEADER_SIZE]
  rw [hInv.slot_enc i hi, hInv.enc_k i hi, hInv.bytes_k i hi]

theorem search_spec {p : BTreePage} {rows : List (List Nat × List Nat)}
    {offs : List Nat} (hInv : PageInv p rows offs) (k : List Nat)
    (hk : ∀ b ∈ k, b < 256) :
    ∀ m s e, e - s ≤ m → e ≤ rows.length → s ≤ e →
      searchPost rows k s e (search p.data p.smStart k s e) := by
  intro m
  induction m with
  | zero =>
    intro s e h1 h2 h3
    rw [search_stop _ _ _ _ _ (by omega)]
    exact ⟨le_rfl, h3, fun j hj1 hj2 => absurd hj2 (by omega),
      fun j hj1 hj2 => absurd hj2 (by omega)⟩
  | succ m ih =>
    intro s e h1 h2 h3
    by_cases hse : e ≤ s
    · rw [search_stop _ _ _ _ _ hse]
      exact ⟨le_rfl, h3, fun j hj1 hj2 => absurd hj2 (by omega),
        fun j hj1 hj2 => absurd hj2 (by omega)⟩
    · rw [search_step _ _ _ _ _ (by omega)]
      have hpivlt : s + (e - s) / 2 < e := by omega
      have hpivge : s ≤ s + (e - s) / 2 := by omega
      rw [pivotKeyAt_inv hInv _ (by omega)]
      rw [cmpLeBytes_eq_compare_leVal hk (hInv.k256 _ (by omega))]
      rcases Nat.lt_trichotomy (leVal k) (leVal (keyD rows (s + (e - s) / 2)))
        with hlt | heq | hgt
      · rw [Nat.compare_eq_lt.mpr hlt]
        have hrec := ih s (s + (e - s) / 2) (by omega) (by omega) (by omega)
        cases hres : search p.data p.smStart k s (s + (e - s) / 2) with
        | ok i =>
          rw [hres] at hrec
          obtain ⟨ha, hb, hc⟩ := hrec
          exact ⟨ha, by omega, hc⟩
        | error i =>
          rw [hres] at hrec
          obtain ⟨ha, hb, hlo, hhi⟩ := hrec
          refine ⟨ha, by omega, hlo, ?_⟩
          intro j hj1 hj2
          by_cases hjp : j < s + (e - s) / 2
          · exact hhi j hj1 hjp
          · by_cases hjp2 : j = s + (e - s) / 2
            · rw [hjp2]; exact hlt
            · have hst := hInv.sorted (s + (e - s) / 2) j (by omega) (by omega)
              omega
      · rw [Nat.compare_eq_eq.mpr heq]
        exact ⟨hpivge, hpivlt, heq⟩
      · rw [Nat.compare_eq_gt.mpr hgt]
        have hrec := ih (s + (e - s) / 2 + 1) e (by omega) h2 (by omega)
        cases hres : search p.data p.smStart k (s + (e - s) / 2 + 1) e with
        | ok i =>
          rw [hres] at hrec
          obtain ⟨ha, hb, hc⟩ := hrec
          exact ⟨by omega, hb, hc⟩
        | error i =>
          rw [hres] at hrec
          obtain ⟨ha, hb, hlo, hhi⟩ := hrec
          refine ⟨by omega, hb, ?_, hhi⟩
          intro j hj1 hj2
          by_cases hjp : s + (e - s) / 2 + 1 ≤ j
          · exact hlo j hjp hj2
          · by_cases hjp2 : j = s + (e - s) / 2
            · rw [hjp2]; omega
            · have hst := hInv.sorted j (s + (e - s) / 2) (by omega) (by omega)
              omega

theorem search_found {p : BTreePage} {rows : List (List Nat × List Nat)}
    {offs : List Nat} (hInv : PageInv p rows offs) (k : List Nat)
    (hk : ∀ b ∈ k, b < 256) (t : Nat) (ht : t < rows.length)
    (hkey : leVal k = leVal (keyD rows t)) :
    search p.data p.smStart k 0 rows.length = .ok t := by
  have hs := search_spec hInv k hk rows.length 0 rows.length (by omega) le_rfl
    (by omega)
  cases hres : search p.data p.smStart k 0 rows.length with
  | ok i =>
    rw [hres] at hs
    obtain ⟨_, hb, hc⟩ := hs
    rcases Nat.lt_trichotomy i t with h | h | h
    · have := hInv.sorted i t h ht
      omega
    · rw [h]
    · have := hInv.sorted t i h hb
      omega
  | error i =>
    rw [hres] at hs
    obtain ⟨_, hb, hlo, hhi⟩ := hs
    by_cases hit : t < i
    · have := hlo t (by omega) hit
      omega
    · have := hhi t (by omega) ht
      omega

theorem search_fresh {p : BTreePage} {rows : List (List Nat × List Nat)}
    {offs : List Nat} (hInv : PageInv p rows offs) (k : List Nat)
    (hk : ∀ b ∈ k, b < 256)
    (hfresh : ∀ i, i < rows.length → leVal (keyD rows i) ≠ leVal k) :
    ∃ idx, search p.data p.smStart k 0 rows.length = .error idx ∧
      idx ≤ rows.length ∧
      (∀ j, j < idx → leVal (keyD rows j) < leVal k) ∧
      (∀ j, idx ≤ j → j < rows.length → leVal k < leVal (keyD rows j)) := by
  have hs := search_spec hInv k hk rows.length 0 rows.length (by omega) le_rfl
    (by omega)
  cases hres : search p.data p.smStart k 0 rows.length with
  | ok i =>
    rw [hres] at hs
    obtain ⟨_, hb, hc⟩ := hs
    exact absurd hc.symm (hfresh i hb)
  | error i =>
    rw [hres] at hs
    obtain ⟨_, hb, hlo, hhi⟩ := hs
    exact ⟨i, rfl, hb, fun j hj => hlo j (by omega) hj, hhi⟩

/-- Rebuilding the page invariant after an insert: if the new data
function `dF` agrees with the old bytes below the row area's new end,
holds the freshly written row at `p.fsStart`, and holds the shifted slot
map, then the updated page view satisfies `PageInv` for the logical rows
with `(k, v)` inserted at `idx`. -/
theorem build_inv (p : BTreePage) (rows : List (List Nat × List Nat))
    (offs : List Nat) (hInv : PageInv p rows offs) (k v : List Nat) (idx : Nat)
    (dF H : Nat → Nat)
    (hk256 : ∀ b ∈ k, b < 256)
    (hidxle : idx ≤ rows.length)
    (hlo : ∀ j, j < idx → leVal (keyD rows j) < leVal k)
    (hhi : ∀ j, idx ≤ j → j < rows.length → leVal k < leVal (keyD rows j))
    (hfit : 4 + k.length + v.length + 2 ≤ p.fsEnd - p.fsStart)
    (hlow : ∀ a, a < p.fsStart → dF a = p.data a)
    (henck : readU16 dF p.fsStart = k.length)
    (hencv : readU16 dF (p.fsStart + 2) = v.length)
    (hbk : readBytes dF (p.fsStart + 4) k.length = k)
    (hbv : readBytes dF (p.fsStart + 4 + k.length) v.length = v)
    (hslt : ∀ i, i < idx → readU16 dF (p.fsEnd - 2 + 2 * i) = offD offs i)
    (hsself : readU16 dF (p.fsEnd - 2 + 2 * idx) = p.fsStart)
    (hsgt : ∀ i, idx < i → i ≤ rows.length →
      readU16 dF (p.fsEnd - 2 + 2 * i) = offD offs (i - 1))
    (hhdr : readU16 H 0 = rows.length + 1) :
    PageInv
      { hdr := H, data := dF, fsStart := p.fsStart + (4 + k.length + v.length),
        fsEnd := p.fsEnd - 2, smStart := p.fsEnd - 2 }
      (insAt rows idx (k, v)) (insAt offs idx p.fsStart) := by
  have hn := hInv.olen
  have hsz : 2 * rows.length ≤ 7998 := by
    have := hInv.size_ok
    simpa [PAGE_BODY_SIZE] using this
  have hS : p.smStart = 7998 - 2 * rows.length := by
    have := hInv.sm
    simpa [PAGE_BODY_SIZE] using this
  have hBS : p.fsEnd = p.smStart := hInv.fse
  have hle : p.fsStart ≤ p.fsEnd := hInv.fsle
  have hidxo : idx ≤ offs.length := by omega
  have hKlt : ∀ i, i < idx → keyD (insAt rows idx (k, v)) i = keyD rows i := by
    intro i hi
    simp only [keyD]
    rw [insAt_getD_lt _ _ _ _ _ hi hidxle]
  have hKself : keyD (insAt rows idx (k, v)) idx = k := by
    simp only [keyD]
    rw [insAt_getD_self _ _ _ _ hidxle]
  have hKgt : ∀ i, idx < i → keyD (insAt rows idx (k, v)) i = keyD rows (i - 1) := by
    intro i hi
    simp only [keyD]
    rw [insAt_getD_gt _ _ _ _ _ hi hidxle]
  have hVlt : ∀ i, i < idx → valD (insAt rows idx (k, v)) i = valD rows i := by
    intro i hi
    simp only [valD]
    rw [insAt_getD_lt _ _ _ _ _ hi hidxle]
  have hVself : valD (insAt rows idx (k, v)) idx = v := by
    simp only [valD]
    rw [insAt_getD_self _ _ _ _ hidxle]
  have hVgt : ∀ i, idx < i → valD (insAt rows idx (k, v)) i = valD rows (i - 1) := by
    intro i hi
    simp only [valD]
    rw [insAt_getD_gt _ _ _ _ _ hi hidxle]
  have hOlt : ∀ i, i < idx → offD (insAt offs idx p.fsStart) i = offD offs i := by
    intro i hi
    simp only [offD]
    rw [insAt_getD_lt _ _ _ _ _ hi hidxo]
  have hOself : offD (insAt offs idx p.fsStart) idx = p.fsStart := by
    simp only [offD]
    rw [insAt_getD_self _ _ _ _ hidxo]
  have hOgt : ∀ i, idx < i → offD (insAt offs idx p.fsStart) i = offD offs (i - 1) := by
    intro i hi
    simp only [offD]
    rw [insAt_getD_gt _ _ _ _ _ hi hidxo]
  have hlen' : (insAt rows idx (k, v)).length = rows.length + 1 :=
    insAt_length _ _ _ hidxle
  have holen' : (insAt offs idx p.fsStart).length = offs.length + 1 :=
    insAt_length _ _ _ hidxo
  have hU16low : ∀ q, q + 2 ≤ p.fsStart → readU16 dF q = readU16 p.data q := by
    intro q hq
    exact readU16_congr_pt (hlow q (by omega)) (hlow (q + 1) (by omega))
  refine ⟨?_, ?_, ?_, ?_, rfl, ?_, ?_, ?_, ?_, ?_, ?_, ?_, ?_, ?_, ?_⟩
  · rw [hlen', holen', hn]
  · show readU16 H 0 = (insAt rows idx (k, v)).length
    rw [hhdr, hlen']
  · show 2 * (insAt rows idx (k, v)).length ≤ PAGE_BODY_SIZE
    rw [hlen']
    simp only [PAGE_BODY_SIZE]
    omega
  · show p.fsEnd - 2 = PAGE_BODY_SIZE - 2 * (insAt rows idx (k, v)).length
    rw [hlen']
    simp only [PAGE_BODY_SIZE]
    omega
  · show p.fsStart + (4 + k.length + v.length) ≤ p.fsEnd - 2
    omega
  · -- off_fit
    intro i hi
    rw [hlen'] at hi
    show offD (insAt offs idx p.fsStart) i + 4 + (keyD (insAt rows idx (k, v)) i).length
        + (valD (insAt rows idx (k, v)) i).length ≤ p.fsStart + (4 + k.length + v.length)
    rcases Nat.lt_trichotomy i idx with hci | hci | hci
    · rw [hOlt i hci, hKlt i hci, hVlt i hci]
      have := hInv.off_fit i (by omega)
      omega
    · subst hci
      rw [hOself, hKself, hVself]
      omega
    · rw [hOgt i hci, hKgt i hci, hVgt i hci]
      have := hInv.off_fit (i - 1) (by omega)
      omega
  · -- enc_k
    intro i hi
    rw [hlen'] at hi
    show readU16 dF (offD (insAt offs idx p.fsStart) i)
        = (keyD (insAt rows idx (k, v)) i).length
    rcases Nat.lt_trichotomy i idx with hci | hci | hci
    · rw [hOlt i hci, hKlt i hci]
      have := hInv.off_fit i (by omega)
      rw [hU16low _ (by omega)]
      exact hInv.enc_k i (by omega)
    · subst hci
      rw [hOself, hKself]
      exact henck
    · rw [hOgt i hci, hKgt i hci]
      have := hInv.off_fit (i - 1) (by omega)
      rw [hU16low _ (by omega)]
      exact hInv.enc_k (i - 1) (by omega)
  · -- enc_v
    intro i hi
    rw [hlen'] at hi
    show readU16 dF (offD (insAt offs idx p.fsStart) i + 2)
        = (valD (insAt rows idx (k, v)) i).length
    rcases Nat.lt_trichotomy i idx with hci | hci | hci
    · rw [hOlt i hci, hVlt i hci]
      have := hInv.off_fit i (by omega)
      rw [hU16low _ (by omega)]
      exact hInv.enc_v i (by omega)
    · subst hci
      rw [hOself, hVself]
      exact hencv
    · rw [hOgt i hci, hVgt i hci]
      have := hInv.off_fit (i - 1) (by omega)
      rw [hU16low _ (by omega)]
      exact hInv.enc_v (i - 1) (by omega)
  · -- bytes_k
    intro i hi
    rw [hlen'] at hi
    show readBytes dF (offD (insAt offs idx p.fsStart) i + 4)
        (keyD (insAt rows idx (k, v)) i).length = keyD (insAt rows idx (k, v)) i
    rcases Nat.lt_trichotomy i idx with hci | hci | hci
    · rw [hOlt i hci, hKlt i hci]
      have := hInv.off_fit i (by omega)
      rw [readBytes_congr (fun j hj => hlow _ (by omega))]
      exact hInv.bytes_k i (by omega)
    · subst hci
      rw [hOself, hKself]
      exact hbk
    · rw [hOgt i hci, hKgt i hci]
      have := hInv.off_fit (i - 1) (by omega)
      rw [readBytes_congr (fun j hj => hlow _ (by omega))]
      exact hInv.bytes_k (i - 1) (by omega)
  · -- bytes_v
    intro i hi
    rw [hlen'] at hi
    show readBytes dF (offD (insAt offs idx p.fsStart) i + 4
        + (keyD (insAt rows idx (k, v)) i).length)
        (valD (insAt rows idx (k, v)) i).length = valD (insAt rows idx (k, v)) i
    rcases Nat.lt_trichotomy i idx with hci | hci | hci
    · rw [hOlt i hci, hKlt i hci, hVlt i hci]
      have := hInv.off_fit i (by omega)
      rw [readBytes_congr (fun j hj => hlow _ (by omega))]
      exact hInv.bytes_v i (by omega)
    · subst hci
      rw [hOself, hKself, hVself]
      exact hbv
    · rw [hOgt i hci, hKgt i hci, hVgt i hci]
      have := hInv.off_fit (i - 1) (by omega)
      rw [readBytes_congr (fun j hj => hlow _ (by omega))]
      exact hInv.bytes_v (i - 1) (by omega)
  · -- slot_enc
    intro i hi
    rw [hlen'] at hi
    show readU16 dF (p.fsEnd - 2 + 2 * i) = offD (insAt offs idx p.fsStart) i
    rcases Nat.lt_trichotomy i idx with hci | hci | hci
    · rw [hOlt i hci]
      exact hslt i hci
    · subst hci
      rw [hOself]
      exact hsself
    · rw [hOgt i hci]
      exact hsgt i hci (by omega)
  · -- k256
    intro i hi
    rw [hlen'] at hi
    rcases Nat.lt_trichotomy i idx with hci | hci | hci
    · rw [hKlt i hci]
      exact hInv.k256 i (by omega)
    · subst hci
      rw [hKself]
      exact hk256
    · rw [hKgt i hci]
      exact hInv.k256 (i - 1) (by omega)
  · -- disj
    intro i j hi hj hij
    rw [hlen'] at hi hj
    rcases Nat.lt_trichotomy i idx with hci | hci | hci <;>
      rcases Nat.lt_trichotomy j idx with hcj | hcj | hcj
    · rw [hOlt i hci, hKlt i hci, hVlt i hci, hOlt j hcj, hKlt j hcj, hVlt j hcj]
      exact hInv.disj i j (by omega) (by omega) hij
    · subst hcj
      rw [hOlt i hci, hKlt i hci, hVlt i hci, hOself]
      have := hInv.off_fit i (by omega)
      left
      omega
    · rw [hOlt i hci, hKlt i hci, hVlt i hci, hOgt j hcj, hKgt j hcj, hVgt j hcj]
      exact hInv.disj i (j - 1) (by omega) (by omega) (by omega)
    · subst hci
      rw [hOlt j hcj, hKlt j hcj, hVlt j hcj, hOself]
      have := hInv.off_fit j (by omega)
      right
      omega
    · omega
    · subst hci
      rw [hOgt j hcj, hKgt j hcj, hVgt j hcj, hOself]
      have := hInv.off_fit (j - 1) (by omega)
      right
      omega
    · rw [hOgt i hci, hKgt i hci, hVgt i hci, hOlt j hcj, hKlt j hcj, hVlt j hcj]
      exact hInv.disj (i - 1) j (by omega) (by omega) (by omega)
    · subst hcj
      rw [hOgt i hci, hKgt i hci, hVgt i hci, hOself]
      have := hInv.off_fit (i - 1) (by omega)
      left
      omega
    · rw [hOgt i hci, hKgt i hci, hVgt i hci, hOgt j hcj, hKgt j hcj, hVgt j hcj]
      exact hInv.disj (i - 1) (j - 1) (by omega) (by omega) (by omega)
  · -- sorted
    intro i j hij hj
    rw [hlen'] at hj
    rcases Nat.lt_trichotomy j idx with hcj | hcj | hcj
    · rw [hKlt i (by omega), hKlt j hcj]
      exact hInv.sorted i j hij (by omega)
    · subst hcj
      rw [hKlt i hij, hKself]
      exact hlo i hij
    · rw [hKgt j hcj]
      rcases Nat.lt_trichotomy i idx with hci | hci | hci
      · rw [hKlt i hci]
        exact hInv.sorted i (j - 1) (by omega) (by omega)
      · subst hci
        rw [hKself]
        exact hhi (j - 1) (by omega) (by omega)
      · rw [hKgt i hci]
        exact hInv.sorted (i - 1) (j - 1) (by omega) (by omega)

/-- `save` of a key not stored on a well-formed page: the insert path
succeeds and the page satisfies the invariant with `(k, v)` inserted at
the search's insertion point. -/
theorem save_fresh_spec (p : BTreePage) (rows : List (List Nat × List Nat))
    (offs : List Nat) (hInv : PageInv p rows offs) (k v : List Nat)
    (hk : ∀ b ∈ k, b < 256)
    (hfresh : ∀ i, i < rows.length → leVal (keyD rows i) ≠ leVal k)
    (hfit : 4 + k.length + v.length + 2 ≤ p.fsEnd - p.fsStart) :
    ∃ idx, idx ≤ rows.length ∧
      (pageSave p k v).2 = .ok () ∧
      PageInv (pageSave p k v).1 (insAt rows idx (k, v))
        (insAt offs idx p.fsStart) := by
  obtain ⟨idx, hsearch, hidxle, hlo, hhi⟩ := search_fresh hInv k hk hfresh
  have hsz : 2 * rows.length ≤ 7998 := by
    have := hInv.size_ok
    simpa [PAGE_BODY_SIZE] using this
  have hS : p.smStart = 7998 - 2 * rows.length := by
    have := hInv.sm
    simpa [PAGE_BODY_SIZE] using this
  have hBS : p.fsEnd = p.smStart := hInv.fse
  have hle : p.fsStart ≤ p.fsEnd := hInv.fsle
  have hkl : k.length < 65536 := by omega
  have hvl : v.length < 65536 := by omega
  have hsearch' : search p.data p.smStart k 0 (getSlotCount p) = .error idx := by
    rw [hInv.cnt]; exact hsearch
  have hcheck : ¬ (ROW_HEADER_SIZE + k.length + v.length + SLOT_MAP_ELEMENT_SIZE
      > p.fsEnd - p.fsStart) := by
    simp only [ROW_HEADER_SIZE, SLOT_MAP_ELEMENT_SIZE]
    omega
  have hbi : bodyInsert p k v idx =
      (insertSlotElement
        { hdr := p.hdr
          data := rowSetValue (rowSetKey p.data p.fsStart k) p.fsStart v
          fsStart := p.fsStart + (ROW_HEADER_SIZE + k.length + v.length)
          fsEnd := p.fsEnd
          smStart := p.smStart }
        p.fsStart idx, .ok ()) := by
    simp only [bodyInsert]
    rw [if_neg hcheck]
  have hps : pageSave p k v =
      ({ hdr := writeBytes p.hdr 0 (u16Bytes (readU16 p.hdr 0 + 1))
         data := writeBytes
           (copyLoopAsc (rowSetValue (rowSetKey p.data p.fsStart k) p.fsStart v)
             (p.fsEnd - SLOT_MAP_ELEMENT_SIZE)
             (p.fsEnd - SLOT_MAP_ELEMENT_SIZE + SLOT_MAP_ELEMENT_SIZE * idx))
           (p.fsEnd - SLOT_MAP_ELEMENT_SIZE + SLOT_MAP_ELEMENT_SIZE * idx)
           (u16Bytes p.fsStart)
         fsStart := p.fsStart + (ROW_HEADER_SIZE + k.length + v.length)
         fsEnd := p.fsEnd - SLOT_MAP_ELEMENT_SIZE
         smStart := p.fsEnd - SLOT_MAP_ELEMENT_SIZE }, .ok ()) := by
    unfold pageSave
    rw [hsearch']
    show (increaseSlotCount (bodyInsert p k v idx).1 1, (bodyInsert p k v idx).2) = _
    rw [hbi]
    rfl
  set dRow := rowSetValue (rowSetKey p.data p.fsStart k) p.fsStart v with hdR
  set dFin := writeBytes (copyLoopAsc dRow (p.fsEnd - 2) (p.fsEnd - 2 + 2 * idx))
    (p.fsEnd - 2 + 2 * idx) (u16Bytes p.fsStart) with hdF
  have hrow_out : ∀ a, a < p.fsStart ∨ p.fsStart + 4 + k.length + v.length ≤ a →
      dRow a = p.data a := by
    intro a ha
    rw [hdR]
    exact rowWrite_out p.data p.fsStart k v hkl a ha
  have hmid : ∀ a, a < p.fsEnd - 2 → dFin a = dRow a := by
    intro a ha
    rw [hdF]
    rw [writeBytes_lt (by omega)]
    rw [copyLoopAsc_apply, if_neg (by omega)]
  have hlow : ∀ a, a < p.fsStart → dFin a = p.data a := by
    intro a ha
    rw [hmid a (by omega)]
    exact hrow_out a (Or.inl ha)
  have hslotpt : ∀ q, p.fsEnd - 2 ≤ q → q < p.fsEnd - 2 + 2 * idx →
      dFin q = p.data (q + 2) := by
    intro q h1 h2
    rw [hdF]
    rw [writeBytes_lt (by omega)]
    rw [copyLoopAsc_apply, if_pos ⟨h1, h2⟩]
    exact hrow_out (q + 2) (Or.inr (by omega))
  have hslotpt2 : ∀ q, p.fsEnd - 2 + 2 * idx + 2 ≤ q → dFin q = p.data q := by
    intro q hq
    rw [hdF]
    rw [writeBytes_ge (by simp only [u16Bytes_length]; omega)]
    rw [copyLoopAsc_apply, if_neg (by omega)]
    exact hrow_out q (Or.inr (by omega))
  have henck : readU16 dFin p.fsStart = k.length := by
    rw [readU16_congr_pt (hmid _ (by omega)) (hmid _ (by omega)), hdR]
    exact rowWrite_enc_k p.data p.fsStart k v hkl
  have hencv : readU16 dFin (p.fsStart + 2) = v.length := by
    rw [readU16_congr_pt (hmid _ (by omega)) (hmid _ (by omega)), hdR]
    exact rowWrite_enc_v p.data p.fsStart k v hkl hvl
  have hbk : readBytes dFin (p.fsStart + 4) k.length = k := by
    rw [readBytes_congr (fun j hj => hmid _ (by omega)), hdR]
    exact rowWrite_bytes_k p.data p.fsStart k v hkl
  have hbv : readBytes dFin (p.fsStart + 4 + k.length) v.length = v := by
    rw [readBytes_congr (fun j hj => hmid _ (by omega)), hdR]
    exact rowWrite_bytes_v p.data p.fsStart k v hkl
  have hslt : ∀ i, i < idx → readU16 dFin (p.fsEnd - 2 + 2 * i) = offD offs i := by
    intro i hi
    have e1 : dFin (p.fsEnd - 2 + 2 * i) = p.data (p.smStart + 2 * i) := by
      rw [hslotpt _ (by omega) (by omega)]
      congr 1
      omega
    have e2 : dFin (p.fsEnd - 2 + 2 * i + 1) = p.data (p.smStart + 2 * i + 1) := by
      rw [hslotpt _ (by omega) (by omega)]
      congr 1
      omega
    have e3 : readU16 dFin (p.fsEnd - 2 + 2 * i) = readU16 p.data (p.smStart + 2 * i) := by
      simp only [readU16, e1, e2]
    rw [e3]
    exact hInv.slot_enc i (by omega)
  have hsself : readU16 dFin (p.fsEnd - 2 + 2 * idx) = p.fsStart := by
    rw [hdF, readU16_writeBytes_u16]
    omega
  have hsgt : ∀ i, idx < i → i ≤ rows.length →
      readU16 dFin (p.fsEnd - 2 + 2 * i) = offD offs (i - 1) := by
    intro i h1 h2
    have e1 : dFin (p.fsEnd - 2 + 2 * i) = p.data (p.smStart + 2 * (i - 1)) := by
      rw [hslotpt2 _ (by omega)]
      congr 1
      omega
    have e2 : dFin (p.fsEnd - 2 + 2 * i + 1) = p.data (p.smStart + 2 * (i - 1) + 1) := by
      rw [hslotpt2 _ (by omega)]
      congr 1
      omega
    have e3 : readU16 dFin (p.fsEnd - 2 + 2 * i)
        = readU16 p.data (p.smStart + 2 * (i - 1)) := by
      simp only [readU16, e1, e2]
    rw [e3]
    exact hInv.slot_enc (i - 1) (by omega)
  have hhdr : readU16 (writeBytes p.hdr 0 (u16Bytes (readU16 p.hdr 0 + 1))) 0
      = rows.length + 1 := by
    rw [readU16_writeBytes_u16]
    have hc : readU16 p.hdr 0 = rows.length := hInv.cnt
    omega
  refine ⟨idx, hidxle, by rw [hps], ?_⟩
  rw [hps]
  show PageInv
    { hdr := writeBytes p.hdr 0 (u16Bytes (readU16 p.hdr 0 + 1)), data := dFin,
      fsStart := p.fsStart + (4 + k.length + v.length), fsEnd := p.fsEnd - 2,
      smStart := p.fsEnd - 2 }
    (insAt rows idx (k, v)) (insAt offs idx p.fsStart)
  exact build_inv p rows offs hInv k v idx dFin _ hk hidxle hlo hhi hfit hlow
    henck hencv hbk hbv hslt hsself hsgt hhdr

theorem readBytes_drop (f : Nat → Nat) (off len a : Nat) :
    (readBytes f off len).drop a = readBytes f (off + a) (len - a) := by
  apply List.ext_getElem
  · simp [readBytes]
  · intro j h1 h2
    rw [List.getElem_drop]
    rw [readBytes_getElem _ _ _ _ (by simp [readBytes] at h1 ⊢; omega),
      readBytes_getElem _ _ _ _ (by simp [readBytes] at h2 ⊢; omega)]
    congr 1
    omega

theorem readBytes_take (f : Nat → Nat) (off len b : Nat) :
    (readBytes f off len).take b = readBytes f off (min b len) := by
  apply List.ext_getElem
  · simp [readBytes]
  · intro j h1 h2
    rw [List.getElem_take]
    rw [readBytes_getElem _ _ _ _ (by simp [readBytes] at h1 ⊢; omega),
      readBytes_getElem _ _ _ _ (by simp [readBytes] at h2 ⊢; omega)]

/-- `get` on a well-formed page holding a key of equal comparison value at
slot `t` returns the stored row, whose decoded value is the stored value. -/
theorem get_found_value (p : BTreePage) (rows : List (List Nat × List Nat))
    (offs : List Nat) (hInv : PageInv p rows offs) (t : Nat)
    (ht : t < rows.length) (k : List Nat) (hk : ∀ b ∈ k, b < 256)
    (hkey : leVal k = leVal (keyD rows t)) :
    pageGetValue p k = some (valD rows t) := by
  have hfound : search p.data p.smStart k 0 (getSlotCount p) = .ok t := by
    rw [hInv.cnt]
    exact search_found hInv k hk t ht hkey
  have hoff : getSlotMapElement p t = offD offs t := by
    simp only [getSlotMapElement, SLOT_MAP_ELEMENT_SIZE]
    exact hInv.slot_enc t ht
  have hsz : rowGetSize p.data (offD offs t)
      = (keyD rows t).length + (valD rows t).length + 4 := by
    simp only [rowGetSize, rowGetKeySize, rowGetValueSize, ROW_HEADER_SIZE]
    rw [hInv.enc_k t ht, hInv.enc_v t ht]
  simp only [pageGetValue, pageGet, bodyGet, hfound, hoff, hsz, Option.map_some']
  have hks : (readBytes p.data (offD offs t)
        ((keyD rows t).length + (valD rows t).length + 4)).getD 0 0
      + 256 * (readBytes p.data (offD offs t)
        ((keyD rows t).length + (valD rows t).length + 4)).getD 1 0
      = (keyD rows t).length := by
    rw [readBytes_getD _ _ _ _ (by omega), readBytes_getD _ _ _ _ (by omega)]
    have := hInv.enc_k t ht
    simp only [readU16] at this
    simp only [Nat.add_zero]
    omega
  have hvs : (readBytes p.data (offD offs t)
        ((keyD rows t).length + (valD rows t).length + 4)).getD 2 0
      + 256 * (readBytes p.data (offD offs t)
        ((keyD rows t).length + (valD rows t).length + 4)).getD 3 0
      = (valD rows t).length := by
    rw [readBytes_getD _ _ _ _ (by omega), readBytes_getD _ _ _ _ (by omega)]
    have hv := hInv.enc_v t ht
    simp only [readU16] at hv
    rw [show offD offs t + 2 + 1 = offD offs t + 3 from by omega] at hv
    omega
  simp only [rowGetValue, ROW_HEADER_SIZE, hks, hvs]
  rw [readBytes_drop, readBytes_take]
  rw [show (keyD rows t).length + (valD rows t).length + 4
      - (4 + (keyD rows t).length) = (valD rows t).length from by omega]
  rw [Nat.min_self]
  rw [show offD offs t + (4 + (keyD rows t).length)
      = offD offs t + 4 + (keyD rows t).length from by omega]
  rw [hInv.bytes_v t ht]

/-- `save` of a key already stored (at slot `t`) with a value of exactly
the stored value's length: the update path succeeds, overwrites only the
value bytes, keeps the slot count, and preserves the invariant. -/
theorem save_update_spec (p : BTreePage) (rows : List (List Nat × List Nat))
    (offs : List Nat) (hInv : PageInv p rows offs) (t : Nat)
    (ht : t < rows.length) (k v : List Nat) (hk : ∀ b ∈ k, b < 256)
    (hkey : leVal k = leVal (keyD rows t))
    (hlen : v.length = (valD rows t).length) :
    (pageSave p k v).2 = .ok () ∧
    getSlotCount (pageSave p k v).1 = getSlotCount p ∧
    PageInv (pageSave p k v).1 (rows.set t (keyD rows t, v)) offs := by
  have hsz : 2 * rows.length ≤ 7998 := by
    have := hInv.size_ok
    simpa [PAGE_BODY_SIZE] using this
  have hS : p.smStart = 7998 - 2 * rows.length := by
    have := hInv.sm
    simpa [PAGE_BODY_SIZE] using this
  have hBS : p.fsEnd = p.smStart := hInv.fse
  have hle : p.fsStart ≤ p.fsEnd := hInv.fsle
  have hfit := hInv.off_fit t ht
  have hvl : v.length < 65536 := by omega
  have hfound : search p.data p.smStart k 0 (getSlotCount p) = .ok t := by
    rw [hInv.cnt]
    exact search_found hInv k hk t ht hkey
  have hoff : getSlotMapElement p t = offD offs t := by
    simp only [getSlotMapElement, SLOT_MAP_ELEMENT_SIZE]
    exact hInv.slot_enc t ht
  have hks : rowGetKeySize p.data (offD offs t) = (keyD rows t).length :=
    hInv.enc_k t ht
  have hvsz : rowGetValueSize p.data (offD offs t) = (valD rows t).length :=
    hInv.enc_v t ht
  have hpu : pageSave p k v =
      ({ hdr := p.hdr, data := rowSetValue p.data (offD offs t) v,
         fsStart := p.fsStart, fsEnd := p.fsEnd, smStart := p.smStart },
       .ok ()) := by
    unfold pageSave
    rw [hfound]
    show bodyUpdate p v t = _
    simp only [bodyUpdate, hoff]
    rw [if_neg (by rw [hvsz, hlen]; simp)]
  have hout : ∀ a, a < offD offs t + 2 ∨
      offD offs t + 4 + (keyD rows t).length + v.length ≤ a →
      rowSetValue p.data (offD offs t) v a = p.data a := by
    intro a ha
    simp only [rowSetValue, hks, ROW_HEADER_SIZE]
    rcases ha with h | h
    · rw [writeBytes_lt (by omega), writeBytes_lt (by omega)]
    · rw [writeBytes_ge (by omega), writeBytes_ge (by simp only [u16Bytes_length]; omega)]
  have hother : ∀ j, j < rows.length → j ≠ t → ∀ a, offD offs j ≤ a →
      a < offD offs j + 4 + (keyD rows j).length + (valD rows j).length →
      rowSetValue p.data (offD offs t) v a = p.data a := by
    intro j hj hjt a h1 h2
    rcases hInv.disj j t hj ht hjt with h | h
    · exact hout a (Or.inl (by omega))
    · exact hout a (Or.inr (by omega))
  have hhigh : ∀ a, p.fsStart ≤ a → rowSetValue p.data (offD offs t) v a = p.data a := by
    intro a ha
    exact hout a (Or.inr (by omega))
  have hKset : ∀ j, keyD (rows.set t (keyD rows t, v)) j = keyD rows j := by
    intro j
    by_cases hjt : j = t
    · subst hjt
      simp only [keyD]
      rw [getD_set_self _ _ _ _ ht]
    · simp only [keyD]
      rw [getD_set_ne _ _ _ _ _ (fun h => hjt h.symm)]
  have hVt : valD (rows.set t (keyD rows t, v)) t = v := by
    simp only [valD]
    rw [getD_set_self _ _ _ _ ht]
  have hVne : ∀ j, j ≠ t → valD (rows.set t (keyD rows t, v)) j = valD rows j := by
    intro j hjt
    simp only [valD]
    rw [getD_set_ne _ _ _ _ _ (fun h => hjt h.symm)]
  have hVlen : ∀ j, j < rows.length →
      (valD (rows.set t (keyD rows t, v)) j).length = (valD rows j).length := by
    intro j hj
    by_cases hjt : j = t
    · subst hjt
      rw [hVt, hlen]
    · rw [hVne j hjt]
  have hlset : (rows.set t (keyD rows t, v)).length = rows.length := by
    simp
  have hupd_enc_v : readU16 (rowSetValue p.data (offD offs t) v) (offD offs t + 2)
      = v.length := by
    simp only [rowSetValue, hks, ROW_HEADER_SIZE]
    rw [readU16_congr_pt (writeBytes_lt (by omega)) (writeBytes_lt (by omega))]
    rw [readU16_writeBytes_u16]
    omega
  have hupd_bytes_v : readBytes (rowSetValue p.data (offD offs t) v)
      (offD offs t + 4 + (keyD rows t).length) v.length = v := by
    simp only [rowSetValue, hks, ROW_HEADER_SIZE]
    exact readBytes_writeBytes _ _ v
  have hupd_keyrange : ∀ j, j < (keyD rows t).length →
      rowSetValue p.data (offD offs t) v (offD offs t + 4 + j)
        = p.data (offD offs t + 4 + j) := by
    intro j hj
    simp only [rowSetValue, hks, ROW_HEADER_SIZE]
    rw [writeBytes_lt (by omega), writeBytes_ge (by simp only [u16Bytes_length]; omega)]
  refine ⟨by rw [hpu], by rw [hpu]; rfl, ?_⟩
  rw [hpu]
  refine ⟨?_, ?_, ?_, ?_, hInv.fse, hInv.fsle, ?_, ?_, ?_, ?_, ?_, ?_, ?_, ?_, ?_⟩
  · rw [hlset, hInv.olen]
  · show getSlotCount p = (rows.set t (keyD rows t, v)).length
    rw [hlset, hInv.cnt]
  · rw [hlset]
    exact hInv.size_ok
  · rw [hlset]
    exact hInv.sm
  · -- off_fit
    intro i hi
    rw [hlset] at hi
    rw [hKset i]
    show offD offs i + 4 + (keyD rows i).length
        + (valD (rows.set t (keyD rows t, v)) i).length ≤ p.fsStart
    rw [hVlen i hi]
    exact hInv.off_fit i hi
  · -- enc_k
    intro i hi
    rw [hlset] at hi
    rw [hKset i]
    show readU16 (rowSetValue p.data (offD offs t) v) (offD offs i)
        = (keyD rows i).length
    by_cases hit : i = t
    · subst hit
      rw [readU16_congr_pt (hout _ (Or.inl (by omega))) (hout _ (Or.inl (by omega)))]
      exact hInv.enc_k i hi
    · have hfi := hInv.off_fit i hi
      rw [readU16_congr_pt (hother i hi hit _ (by omega) (by omega))
        (hother i hi hit _ (by omega) (by omega))]
      exact hInv.enc_k i hi
  · -- enc_v
    intro i hi
    rw [hlset] at hi
    show readU16 (rowSetValue p.data (offD offs t) v) (offD offs i + 2)
        = (valD (rows.set t (keyD rows t, v)) i).length
    by_cases hit : i = t
    · subst hit
      rw [hVt, hupd_enc_v]
    · rw [hVne i hit]
      have hfi := hInv.off_fit i hi
      rw [readU16_congr_pt (hother i hi hit _ (by omega) (by omega))
        (hother i hi hit _ (by omega) (by omega))]
      exact hInv.enc_v i hi
  · -- bytes_k
    intro i hi
    rw [hlset] at hi
    rw [hKset i]
    show readBytes (rowSetValue p.data (offD offs t) v) (offD offs i + 4)
        (keyD rows i).length = keyD rows i
    by_cases hit : i = t
    · subst hit
      rw [readBytes_congr (fun j hj => hupd_keyrange j hj)]
      exact hInv.bytes_k i hi
    · have hfi := hInv.off_fit i hi
      rw [readBytes_congr (fun j hj => hother i hi hit _ (by omega) (by omega))]
      exact hInv.bytes_k i hi
  · -- bytes_v
    intro i hi
    rw [hlset] at hi
    rw [hKset i]
    show readBytes (rowSetValue p.data (offD offs t) v)
        (offD offs i + 4 + (keyD rows i).length)
        (valD (rows.set t (keyD rows t, v)) i).length
        = valD (rows.set t (keyD rows t, v)) i
    by_cases hit : i = t
    · subst hit
      rw [hVt]
      exact hupd_bytes_v
    · rw [hVne i hit]
      have hfi := hInv.off_fit i hi
      rw [readBytes_congr (fun j hj => hother i hi hit _ (by omega) (by omega))]
      exact hInv.bytes_v i hi
  · -- slot_enc
    intro i hi
    rw [hlset] at hi
    show readU16 (rowSetValue p.data (offD offs t) v) (p.smStart + 2 * i)
        = offD offs i
    rw [readU16_congr_pt (hhigh _ (by omega)) (hhigh _ (by omega))]
    exact hInv.slot_enc i hi
  · -- k256
    intro i hi
    rw [hlset] at hi
    rw [hKset i]
    exact hInv.k256 i hi
  · -- disj
    intro i j hi hj hij
    rw [hlset] at hi hj
    rw [hKset i, hKset j]
    have h1 := hVlen i hi
    have h2 := hVlen j hj
    rcases hInv.disj i j hi hj hij with h | h
    · left
      omega
    · right
      omega
  · -- sorted
    intro i j hij hj
    rw [hlset] at hj
    rw [hKset i, hKset j]
    exact hInv.sorted i j hij hj

/-- The all-zero page view satisfies the invariant with no rows. -/
theorem emptyPage_inv : PageInv emptyPage [] [] := by
  refine ⟨rfl, rfl, by decide, by decide, rfl, by decide, ?_, ?_, ?_, ?_, ?_, ?_,
    ?_, ?_, ?_⟩
  · intro i hi
    exact absurd hi (by simp)
  · intro i hi
    exact absurd hi (by simp)
  · intro i hi
    exact absurd hi (by simp)
  · intro i hi
    exact absurd hi (by simp)
  · intro i hi
    exact absurd hi (by simp)
  · intro i hi
    exact absurd hi (by simp)
  · intro i hi
    exact absurd hi (by simp)
  · intro i j hi hj hij
    exact absurd hi (by simp)
  · intro i j hij hj
    exact absurd hj (by simp)

/-- Claim C2 (amended): on a well-formed page that does not already store
a row whose key compares equal to `k`, a `save(k, v)` whose row plus
slot-map element fits in the current free space returns `Ok`, and a
subsequent `get(k)` on the same page returns a row whose value bytes are
exactly `v`. -/
theorem C2_roundtrip_fresh_key (p : BTreePage) (rows : List (List Nat × List Nat))
    (offs : List Nat) (hInv : PageInv p rows offs) (k v : List Nat)
    (hk : ∀ b ∈ k, b < 256)
    (hfresh : ∀ i, i < rows.length → leVal (keyD rows i) ≠ leVal k)
    (hfit : ROW_HEADER_SIZE + k.length + v.length + SLOT_MAP_ELEMENT_SIZE
      ≤ p.fsEnd - p.fsStart) :
    (pageSave p k v).2 = .ok () ∧
    pageGetValue (pageSave p k v).1 k = some v := by
  have hfit' : 4 + k.length + v.length + 2 ≤ p.fsEnd - p.fsStart := by
    simpa [ROW_HEADER_SIZE, SLOT_MAP_ELEMENT_SIZE] using hfit
  obtain ⟨idx, hidxle, hok, hInv'⟩ := save_fresh_spec p rows offs hInv k v hk hfresh hfit'
  refine ⟨hok, ?_⟩
  have hKself : keyD (insAt rows idx (k, v)) idx = k := by
    simp only [keyD]
    rw [insAt_getD_self _ _ _ _ hidxle]
  have hVself : valD (insAt rows idx (k, v)) idx = v := by
    simp only [valD]
    rw [insAt_getD_self _ _ _ _ hidxle]
  have ht' : idx < (insAt rows idx (k, v)).length := by
    rw [insAt_length _ _ _ hidxle]
    omega
  have := get_found_value _ _ _ hInv' idx ht' k hk (by rw [hKself])
  rw [hVself] at this
  exact this

/-- Witness for C2 on the empty page with `k = [1]`, `v = [2]`. -/
theorem C2_roundtrip_fresh_key_witness :
    (pageSave emptyPage [1] [2]).2 = .ok () ∧
    pageGetValue (pageSave emptyPage [1] [2]).1 [1] = some [2] := by
  exact C2_roundtrip_fresh_key emptyPage [] [] emptyPage_inv [1] [2]
    (by decide) (fun i hi => absurd hi (by simp)) (by decide)

/-- Claim C4 (amended): on a well-formed page not already storing a key
equal to `k`, saving `(k, v1)` (which fits) and then `(k, v2)` with
`|v2| = |v1|` succeeds, `get(k)` then returns `v2`, and the second save
leaves the slot count unchanged. -/
theorem C4_upsert_equal_lengths (p : BTreePage) (rows : List (List Nat × List Nat))
    (offs : List Nat) (hInv : PageInv p rows offs) (k v1 v2 : List Nat)
    (hk : ∀ b ∈ k, b < 256)
    (hfresh : ∀ i, i < rows.length → leVal (keyD rows i) ≠ leVal k)
    (hfit : ROW_HEADER_SIZE + k.length + v1.length + SLOT_MAP_ELEMENT_SIZE
      ≤ p.fsEnd - p.fsStart)
    (hvlen : v2.length = v1.length) :
    (pageSave p k v1).2 = .ok () ∧
    (pageSave (pageSave p k v1).1 k v2).2 = .ok () ∧
    pageGetValue (pageSave (pageSave p k v1).1 k v2).1 k = some v2 ∧
    getSlotCount (pageSave (pageSave p k v1).1 k v2).1
      = getSlotCount (pageSave p k v1).1 := by
  have hfit' : 4 + k.length + v1.length + 2 ≤ p.fsEnd - p.fsStart := by
    simpa [ROW_HEADER_SIZE, SLOT_MAP_ELEMENT_SIZE] using hfit
  obtain ⟨idx, hidxle, hok1, hInv1⟩ := save_fresh_spec p rows offs hInv k v1 hk
    hfresh hfit'
  have hKself : keyD (insAt rows idx (k, v1)) idx = k := by
    simp only [keyD]
    rw [insAt_getD_self _ _ _ _ hidxle]
  have hVself : valD (insAt rows idx (k, v1)) idx = v1 := by
    simp only [valD]
    rw [insAt_getD_self _ _ _ _ hidxle]
  have ht1 : idx < (insAt rows idx (k, v1)).length := by
    rw [insAt_length _ _ _ hidxle]
    omega
  obtain ⟨hok2, hcnt2, hInv2⟩ := save_update_spec _ _ _ hInv1 idx ht1 k v2 hk
    (by rw [hKself]) (by rw [hVself]; exact hvlen)
  refine ⟨hok1, hok2, ?_, hcnt2⟩
  have hKset : keyD ((insAt rows idx (k, v1)).set idx
      (keyD (insAt rows idx (k, v1)) idx, v2)) idx = k := by
    simp only [keyD]
    rw [getD_set_self _ _ _ _ ht1]
    exact hKself
  have hVset : valD ((insAt rows idx (k, v1)).set idx
      (keyD (insAt rows idx (k, v1)) idx, v2)) idx = v2 := by
    simp only [valD]
    rw [getD_set_self _ _ _ _ ht1]
  have ht2 : idx < ((insAt rows idx (k, v1)).set idx
      (keyD (insAt rows idx (k, v1)) idx, v2)).length := by
    simpa using ht1
  have := get_found_value _ _ _ hInv2 idx ht2 k hk (by rw [hKset])
  rw [hVset] at this
  exact this

/-- Witness for C4 on the empty page with `k = [2]`, `v1 = [5]`, `v2 = [6]`. -/
theorem C4_upsert_equal_lengths_witness :
    (pageSave emptyPage [2] [5]).2 = .ok () ∧
    (pageSave (pageSave emptyPage [2] [5]).1 [2] [6]).2 = .ok () ∧
    pageGetValue (pageSave (pageSave emptyPage [2] [5]).1 [2] [6]).1 [2]
      = some [6] ∧
    getSlotCount (pageSave (pageSave emptyPage [2] [5]).1 [2] [6]).1
      = getSlotCount (pageSave emptyPage [2] [5]).1 := by
  exact C4_upsert_equal_lengths emptyPage [] [] emptyPage_inv [2] [5] [6]
    (by decide) (fun i hi => absurd hi (by simp)) (by decide) (by decide)

/-- Claim C9: the page view over an all-zero `PAGE_SIZE` buffer is a valid
empty page: slot count 0, free space spanning the whole body, `get`
returning `None` for every key, and any row that fits (plus its slot-map
element) accepted by `save`. -/
theorem C9_zero_buffer_is_valid_empty_page :
    getSlotCount emptyPage = 0 ∧
    emptyPage.fsStart = 0 ∧
    emptyPage.fsEnd = PAGE_BODY_SIZE ∧
    emptyPage.smStart = PAGE_BODY_SIZE ∧
    (∀ k, pageGet emptyPage k = none) ∧
    (∀ k v : List Nat, ROW_HEADER_SIZE + k.length + v.length + SLOT_MAP_ELEMENT_SIZE
      ≤ PAGE_BODY_SIZE → (pageSave emptyPage k v).2 = .ok ()) := by
  refine ⟨by decide, by decide, by decide, by decide, ?_, ?_⟩
  · intro k
    have h0 : getSlotCount emptyPage = 0 := rfl
    simp only [pageGet, bodyGet, h0]
    rw [search_stop _ _ _ _ _ le_rfl]
  · intro k v hfit
    have hs0 : search emptyPage.data emptyPage.smStart k 0 (getSlotCount emptyPage)
        = .error 0 := by
      have h0 : getSlotCount emptyPage = 0 := rfl
      rw [h0]
      exact search_stop _ _ _ _ _ le_rfl
    unfold pageSave
    rw [hs0]
    show (increaseSlotCount (bodyInsert emptyPage k v 0).1 1,
      (bodyInsert emptyPage k v 0).2).2 = .ok ()
    simp only [bodyInsert]
    rw [if_neg (by
      have h1 : emptyPage.fsEnd = 7998 := by decide
      have h2 : emptyPage.fsStart = 0 := by decide
      rw [h1, h2]
      simp only [ROW_HEADER_SIZE, SLOT_MAP_ELEMENT_SIZE, PAGE_BODY_SIZE] at hfit ⊢
      omega)]

/-- Witness for C9's universally quantified parts at `k = [9]`,
`v = [1]`. -/
theorem C9_zero_buffer_is_valid_empty_page_witness :
    pageGet emptyPage [9] = none ∧ (pageSave emptyPage [9] [1]).2 = .ok () := by
  exact ⟨C9_zero_buffer_is_valid_empty_page.2.2.2.2.1 [9],
    C9_zero_buffer_is_valid_empty_page.2.2.2.2.2 [9] [1] (by decide)⟩
